import Mathlib

/-! # Sapling client core: a shallow embedding

The Go packages `sapling` and `sapling/grouphash` are embedded as pure
functions.  Bytes are natural numbers, a Go slice is a list (its capacity is
its length), a Go pointer is an `Option`, a `(value, error)` result is a pair
of options, and a Go run-time panic is an explicit outcome.

The libraries the packages import (`jubjub`, `blake2`, `chacha20poly1305`,
`zech32`) are parameters: records of functions with the Go signatures.  The
reader of `bytecrypto` is embedded directly, with its byte order as a parameter.
-/

namespace Sapling

/-- A Go `byte`. -/
abbrev Byte := Nat

/-- Error values of the imported libraries.  The libraries do not know the
packages embedded here, so none of them is an error value of these packages. -/
inductive LibError where
  /-- The value `jubjub.ErrScalarOutOfRange`. -/
  | ErrScalarOutOfRange
  /-- Any other error value of a library, by a code. -/
  | other (code : Nat)
  deriving DecidableEq, Repr

/-- Error values that the packages compare, create or pass on.  Two errors made
by `errors.New` or `fmt.Errorf` at different places are different values. -/
inductive GoError where
  /-- The value `grouphash.ErrContinue`: invalid point, keep looking. -/
  | ErrContinue
  /-- The value `grouphash.ErrFailed`: FindGroupHash could not find a valid point. -/
  | ErrFailed
  /-- The value `sapling.ErrKeyType`: not a sapling viewing key. -/
  | ErrKeyType
  /-- DecryptNote: received non-canonical rcm repr. -/
  | nonCanonicalRcm
  /-- DecryptNote: computed epk did not match supplied epk. -/
  | epkMismatch
  /-- DecryptNote: received a non-standard note plaintext. -/
  | nonStandardPlaintext
  /-- OutputDescription.UnmarshalBinary: data is wrong size to be output description. -/
  | odWrongSize
  /-- OutputDescription.UnmarshalBinary: a field could not be read (field number). -/
  | odRead (field : Nat)
  /-- OutputDescription.UnmarshalBinary: leftover bytes in output description. -/
  | odLeftover
  /-- The EFVK decoder: data is wrong size for EFVK. -/
  | efvkWrongSize
  /-- The EFVK decoder: a field could not be read (field number). -/
  | efvkRead (field : Nat)
  /-- The EFVK decoder: leftover bytes in efvk. -/
  | efvkLeftover
  /-- An error value of an imported library, passed on unchanged. -/
  | lib (e : LibError)
  deriving DecidableEq, Repr

/-- Causes of a Go run-time panic. -/
inductive Panic where
  /-- The explicit panic of saplingKeyAgreement: key agreement with an off-curve point. -/
  | offCurveKeyAgreement
  /-- The explicit panic of saplingKDF: the KDF digest could not be constructed. -/
  | kdfConstruct
  /-- The explicit panic of prfExpand: the PRF digest could not be constructed. -/
  | prfConstruct
  /-- The explicit panic of deriveIVK: blake2s could not be initialised. -/
  | blake2sInit
  /-- An index or a slice bound outside the capacity of a slice. -/
  | outOfRange
  /-- A method called on, or a library call handed, a nil pointer. -/
  | nilDereference
  deriving DecidableEq, Repr

/-- What a call does: it returns a value or it panics. -/
inductive Outcome (α : Type) where
  | ret (a : α)
  | panic (p : Panic)
  deriving DecidableEq, Repr

/-- A Go result `(*T, error)`. -/
abbrev GoRet (α : Type) := Option α × Option GoError

/-! ## Slices -/

/-- The index expression `s[i]`; `none` is the run-time panic. -/
def index (s : List Byte) (i : Nat) : Option Byte :=
  if i < s.length then some (s.getD i 0) else none

/-- The slice expression `s[lo:hi]` of a slice whose capacity is its length;
`none` is the run-time panic. -/
def slice (s : List Byte) (lo hi : Nat) : Option (List Byte) :=
  if lo ≤ hi ∧ hi ≤ s.length then some ((s.take hi).drop lo) else none

/-- The builtin `make([]byte, n)`. -/
def make (n : Nat) : List Byte := List.replicate n 0

/-- The builtin `copy(dst, src)`: the value of `dst` afterwards. -/
def copy (dst src : List Byte) : List Byte :=
  src.take (min dst.length src.length) ++ dst.drop (min dst.length src.length)

/-! ## The imported libraries -/

/-- The package `jubjub`: the curve context `*jubjub.Jubjub` and the methods
of its scalars and points that this repository calls. -/
structure Jubjub where
  Scalar : Type
  Point : Type
  FieldElement : Type
  /-- The method `ScalarFromBytes`: both results, since DecryptNote uses the
  scalar also when the error is `ErrScalarOutOfRange` or is discarded. -/
  ScalarFromBytes : List Byte → Option Scalar × Option LibError
  /-- The method `Decompress`: a point or an error. -/
  Decompress : List Byte → Except LibError Point
  /-- The method `ScalarMult`: a point or an error. -/
  ScalarMult : Scalar → Point → Except LibError Point
  MulByCofactor : Point → Point
  IsOnCurve : Point → Bool
  IsIdentity : Point → Bool
  Compress : Point → List Byte
  Equals : Point → Point → Bool

/-- A package of `blake2` (`blake2s` or `blake2b`): `NewDigest(nil, nil,
personal, size)`, `Write` and `Sum(nil)`.  The digest is a function of the
personalisation, the size and all the bytes written. -/
structure Blake2 where
  /-- The error of `NewDigest(nil, nil, personal, size)`, if any. -/
  NewDigest : List Byte → Nat → Option LibError
  /-- The error of a `Write` of the given bytes, if any. -/
  Write : List Byte → Option LibError
  /-- The result of `Sum(nil)` after the given bytes were written. -/
  Sum : List Byte → Nat → List Byte → List Byte

/-- The package `chacha20poly1305`. -/
structure Chacha20Poly1305 where
  /-- The error of `New(key)`, if any. -/
  New : List Byte → Option LibError
  /-- The call `aead.Open(nil, nonce, ciphertext, additionalData)` of the
  AEAD made from the key. -/
  Open : List Byte → List Byte → List Byte → List Byte → Except LibError (List Byte)

/-- The package `zech32`. -/
structure Zech32 where
  /-- The function `Decode`: the human-readable part and the 5-bit data. -/
  Decode : String → Except LibError (String × List Byte)
  /-- The function `ConvertBits(data, fromBits, toBits, pad)`. -/
  ConvertBits : List Byte → Nat → Nat → Bool → Except LibError (List Byte)

/-- Everything the two packages import. -/
structure Env where
  jj : Jubjub
  blake2s : Blake2
  blake2b : Blake2
  aead : Chacha20Poly1305
  zech32 : Zech32

/-! ## Package grouphash -/

/-- The bytes of an ASCII string literal, as `[]byte("...")`. -/
def bytesOf (s : String) : List Byte := s.toList.map Char.toNat

/-- The package variable `urs`. -/
def urs : List Byte :=
  bytesOf "096b36a5804bfacef1691e173c366a47ff5ba84a44f26ddd7e8d9f79d5b42df0"

/-- The struct `GroupHasher`: the curve and the domain. -/
structure GroupHasher where
  curve : Jubjub
  blake2s : Blake2
  domain : List Byte

/-- The function `NewGroupHasher`. -/
def NewGroupHasher (E : Env) (domain : List Byte) : GroupHasher × Option GoError :=
  ({ curve := E.jj, blake2s := E.blake2s, domain := domain }, none)

/-- The method `GroupHasher.Hash`. -/
def GroupHasher.Hash (hasher : GroupHasher) (msg : List Byte) : GoRet hasher.curve.Point :=
  match hasher.blake2s.NewDigest hasher.domain 32 with
  | some err => (none, some (.lib err))
  | none =>
    match hasher.blake2s.Write urs with
    | some err => (none, some (.lib err))
    | none =>
      match hasher.blake2s.Write msg with
      | some err => (none, some (.lib err))
      | none =>
        let blakeHashBytes := hasher.blake2s.Sum hasher.domain 32 (urs ++ msg)
        match hasher.curve.Decompress blakeHashBytes with
        | .error err => (none, some (.lib err))
        | .ok p =>
          let p := hasher.curve.MulByCofactor p
          if !hasher.curve.IsOnCurve p || hasher.curve.IsIdentity p then
            (none, some GoError.ErrContinue)
          else
            (some p, none)

/-- The loop of `GroupHasher.FindGroupHash`, from the loop test with counter
`i` (a `uint8`, so `i++` is taken modulo 256).  The fuel bounds the number of
times the loop test is evaluated; `none` means the loop is still running when
the fuel is spent. -/
def GroupHasher.FindGroupHashLoop (hasher : GroupHasher) (msg : List Byte) :
    Nat → Nat → Option (GoRet hasher.curve.Point)
  | 0, _ => none
  | fuel + 1, i =>
    if i ≤ 255 then
      let msgWithIndex := msg ++ [i]
      match hasher.Hash msgWithIndex with
      | (_, some GoError.ErrContinue) =>
        GroupHasher.FindGroupHashLoop hasher msg fuel ((i + 1) % 256)
      | (p, _) => some (p, none)
    else
      some (none, some GoError.ErrFailed)

/-- The method `GroupHasher.FindGroupHash`: the loop from `i := uint8(0)`. -/
def GroupHasher.FindGroupHash (hasher : GroupHasher) (msg : List Byte) (fuel : Nat) :
    Option (GoRet hasher.curve.Point) :=
  hasher.FindGroupHashLoop msg fuel 0

/-- The number of calls of `Hash` that the loop of FindGroupHash makes within
the given fuel, from counter `i`. -/
def GroupHasher.hashCalls (hasher : GroupHasher) (msg : List Byte) : Nat → Nat → Nat
  | 0, _ => 0
  | fuel + 1, i =>
    if i ≤ 255 then
      match hasher.Hash (msg ++ [i]) with
      | (_, some GoError.ErrContinue) =>
        GroupHasher.hashCalls hasher msg fuel ((i + 1) % 256) + 1
      | (_, _) => 1
    else
      0

/-! ## Package bytecrypto: the reader over a byte string -/

/-- The method `String.ReadBytes(&out, n)`: the bytes read and the rest of the
string; `none` is the result `false` (fewer than `n` bytes remain). -/
def bytecrypto.ReadBytes (s : List Byte) (n : Nat) : Option (List Byte × List Byte) :=
  if s.length < n then none else some (s.take n, s.drop n)

/-- The method `String.ReadUint8(&out)`. -/
def bytecrypto.ReadUint8 (s : List Byte) : Option (Nat × List Byte) :=
  match bytecrypto.ReadBytes s 1 with
  | none => none
  | some (v, rest) => some (v.getD 0 0, rest)

/-- The byte order of the integer readers of `bytecrypto`: the integer that
`ReadUint32` makes of the four bytes it reads.  The library is imported, so its
byte order is a parameter. -/
structure ByteOrder where
  uint32 : List Byte → Nat

/-- The byte order that puts the most significant byte first. -/
def bigEndian : ByteOrder where
  uint32 := fun v =>
    (v.getD 0 0 <<< 24) ||| (v.getD 1 0 <<< 16) ||| (v.getD 2 0 <<< 8) ||| v.getD 3 0

/-- The byte order that puts the least significant byte first. -/
def littleEndian : ByteOrder where
  uint32 := fun v =>
    v.getD 0 0 ||| (v.getD 1 0 <<< 8) ||| (v.getD 2 0 <<< 16) ||| (v.getD 3 0 <<< 24)

/-- The method `String.ReadUint32(&out)`: four bytes are read and made into an
integer in the byte order of the library. -/
def bytecrypto.ReadUint32 (B : ByteOrder) (s : List Byte) : Option (Nat × List Byte) :=
  match bytecrypto.ReadBytes s 4 with
  | none => none
  | some (v, rest) => some (B.uint32 v, rest)

/-- The method `String.Empty()`. -/
def bytecrypto.Empty (s : List Byte) : Bool := s.length == 0

/-! ## Package sapling: constants -/

/-- The variable `ZcashIVKPersonality`. -/
def ZcashIVKPersonality : List Byte := bytesOf "Zcashivk"

/-- The variable `ZcashDiversifyPersonality`. -/
def ZcashDiversifyPersonality : List Byte := bytesOf "Zcash_gd"

/-- The variable `ZcashSaplingKDFPersonality`. -/
def ZcashSaplingKDFPersonality : List Byte := bytesOf "Zcash_SaplingKDF"

/-- The variable `ZcashPRFExpandPersonality`. -/
def ZcashPRFExpandPersonality : List Byte := bytesOf "Zcash_ExpandSeed"

/-! ## Package sapling: payment addresses -/

/-- The function `findBasepoint`. -/
def findBasepoint (E : Env) (d : List Byte) : GoRet E.jj.Point :=
  (NewGroupHasher E ZcashDiversifyPersonality).1.Hash d

/-- The struct `PaymentAddress`. -/
structure PaymentAddress (J : Jubjub) where
  d : List Byte
  g_d : J.Point
  pk_d : J.Point

/-- The function `NewPaymentAddress`.  A nil `g_d` with a nil error would be
handed to `ScalarMult`; `findBasepoint` never returns that pair. -/
def NewPaymentAddress (E : Env) (d : List Byte) (ivk : E.jj.Scalar) :
    Outcome (GoRet (PaymentAddress E.jj)) :=
  match findBasepoint E d with
  | (_, some err) => .ret (none, some err)
  | (none, none) => .panic .nilDereference
  | (some g_d, none) =>
    match E.jj.ScalarMult ivk g_d with
    | .error err => .ret (none, some (.lib err))
    | .ok pk_d => .ret (some { d := d, g_d := g_d, pk_d := pk_d }, none)

/-! ## Package sapling: viewing keys -/

/-- The struct `ViewingKey`; a nil slice is the empty list. -/
structure ViewingKey where
  ak : List Byte := []
  nk : List Byte := []
  ovk : List Byte := []
  ivk : List Byte := []
  deriving DecidableEq, Repr

/-- The struct `saplingExtendedFullViewingKey`. -/
structure saplingExtendedFullViewingKey where
  depth : Nat := 0
  parentFVKTag : Nat := 0
  childIndex : Nat := 0
  chaincode : List Byte := []
  vk : ViewingKey := {}
  dk : List Byte := []
  deriving DecidableEq, Repr

/-- The constant `SaplingExtendedFullViewingKeyLength`. -/
def SaplingExtendedFullViewingKeyLength : Nat := 169

/-- The method `saplingExtendedFullViewingKey.UnmarshalBinary`: the receiver
afterwards and the error. -/
def saplingExtendedFullViewingKey.UnmarshalBinary (evk : saplingExtendedFullViewingKey)
    (B : ByteOrder) (data : List Byte) : saplingExtendedFullViewingKey × Option GoError :=
  if data.length ≠ SaplingExtendedFullViewingKeyLength then (evk, some .efvkWrongSize) else
  match bytecrypto.ReadUint8 data with
  | none => (evk, some (.efvkRead 0))
  | some (depth, s) =>
    let evk := { evk with depth := depth }
    match bytecrypto.ReadUint32 B s with
    | none => (evk, some (.efvkRead 1))
    | some (parentFVKTag, s) =>
      let evk := { evk with parentFVKTag := parentFVKTag }
      match bytecrypto.ReadUint32 B s with
      | none => (evk, some (.efvkRead 2))
      | some (childIndex, s) =>
        let evk := { evk with childIndex := childIndex }
        match bytecrypto.ReadBytes s 32 with
        | none => (evk, some (.efvkRead 3))
        | some (chaincode, s) =>
          let evk := { evk with chaincode := chaincode }
          let vk : ViewingKey := {}
          match bytecrypto.ReadBytes s 32 with
          | none => (evk, some (.efvkRead 4))
          | some (ak, s) =>
            let vk := { vk with ak := ak }
            match bytecrypto.ReadBytes s 32 with
            | none => (evk, some (.efvkRead 5))
            | some (nk, s) =>
              let vk := { vk with nk := nk }
              match bytecrypto.ReadBytes s 32 with
              | none => (evk, some (.efvkRead 6))
              | some (ovk, s) =>
                let vk := { vk with ovk := ovk }
                let evk := { evk with vk := vk }
                match bytecrypto.ReadBytes s 32 with
                | none => (evk, some (.efvkRead 7))
                | some (dk, s) =>
                  let evk := { evk with dk := dk }
                  if !bytecrypto.Empty s then (evk, some .efvkLeftover) else (evk, none)

/-- The function `NewViewingKey`. -/
def NewViewingKey (B : ByteOrder) (Z : Zech32) (encoded : String) : GoRet ViewingKey :=
  match Z.Decode encoded with
  | .error err => (none, some (.lib err))
  | .ok (hrp, decoded) =>
    if hrp ≠ "zxviews" then (none, some .ErrKeyType) else
    match Z.ConvertBits decoded 5 8 false with
    | .error err => (none, some (.lib err))
    | .ok data =>
      let evk : saplingExtendedFullViewingKey := {}
      match evk.UnmarshalBinary B data with
      | (_, some err) => (none, some err)
      | (_, none) => (none, none)

/-! ## Package sapling: notes -/

/-- The struct `Note`; a nil pointer is `none`, a nil slice is the empty list. -/
structure Note (J : Jubjub) where
  version : Byte
  value : Nat := 0
  recipient : Option (PaymentAddress J) := none
  rcm : Option J.Scalar := none
  rseed : List Byte := []
  memo : List Byte := []

/-- The constant `BeforeZIP212`. -/
def BeforeZIP212 : Byte := 0x01

/-- The constant `AfterZIP212`. -/
def AfterZIP212 : Byte := 0x02

/-- The variable `prfExpandRcm`. -/
def prfExpandRcm : List Byte := [0x04]

/-- The variable `prfExpandEsk`. -/
def prfExpandEsk : List Byte := [0x05]

/-- The function `binary.LittleEndian.Uint64` on a slice of 8 bytes. -/
def Uint64 (b : List Byte) : Nat :=
  b.getD 0 0 ||| (b.getD 1 0 <<< 8) ||| (b.getD 2 0 <<< 16) ||| (b.getD 3 0 <<< 24) |||
    (b.getD 4 0 <<< 32) ||| (b.getD 5 0 <<< 40) ||| (b.getD 6 0 <<< 48) ||| (b.getD 7 0 <<< 56)

/-- The function `saplingKeyAgreement`. -/
def saplingKeyAgreement (E : Env) (s : E.jj.Scalar) (P : E.jj.Point) : Outcome E.jj.Point :=
  match E.jj.ScalarMult s P with
  | .error _ => .panic .offCurveKeyAgreement
  | .ok p => .ret (E.jj.MulByCofactor p)

/-- The function `saplingKDF`. -/
def saplingKDF (E : Env) (secret epk : E.jj.Point) : Outcome (List Byte) :=
  match E.blake2b.NewDigest ZcashSaplingKDFPersonality 32 with
  | some _ => .panic .kdfConstruct
  | none =>
    .ret (E.blake2b.Sum ZcashSaplingKDFPersonality 32 (E.jj.Compress secret ++ E.jj.Compress epk))

/-- The function `prfExpand`. -/
def prfExpand (E : Env) (seed purpose : List Byte) : Outcome (List Byte) :=
  match E.blake2b.NewDigest ZcashPRFExpandPersonality 64 with
  | some _ => .panic .prfConstruct
  | none => .ret (E.blake2b.Sum ZcashPRFExpandPersonality 64 (seed ++ purpose))

/-- The tail of `DecryptNote` after the version switch: the memo is made and
filled, and the note is returned. -/
def DecryptNote.memoAndReturn {J : Jubjub} (note : Note J) (plaintext : List Byte) :
    Outcome (GoRet (Note J)) :=
  match slice plaintext 52 512 with
  | none => .panic .outOfRange
  | some src => .ret (some { note with memo := copy (make 512) src }, none)

/-- The version switch of `DecryptNote` and what follows it. -/
def DecryptNote.versionSwitch (E : Env) (epk : E.jj.Point) (note : Note E.jj)
    (g_d : E.jj.Point) (plaintext : List Byte) : Outcome (GoRet (Note E.jj)) :=
  if note.version = BeforeZIP212 then
    match slice plaintext 20 52 with
    | none => .panic .outOfRange
    | some b =>
      let r := E.jj.ScalarFromBytes b
      let note := { note with rcm := r.1 }
      if r.2 ≠ none ∧ r.2 ≠ some LibError.ErrScalarOutOfRange then
        .ret (none, some .nonCanonicalRcm)
      else
        DecryptNote.memoAndReturn note plaintext
  else if note.version = AfterZIP212 then
    match slice plaintext 20 52 with
    | none => .panic .outOfRange
    | some b =>
      let note := { note with rseed := copy (make 32) b }
      match prfExpand E note.rseed prfExpandRcm with
      | .panic p => .panic p
      | .ret forRcm =>
        let note := { note with rcm := (E.jj.ScalarFromBytes forRcm).1 }
        match prfExpand E note.rseed prfExpandEsk with
        | .panic p => .panic p
        | .ret forEsk =>
          match (E.jj.ScalarFromBytes forEsk).1 with
          | none => .panic .nilDereference
          | some esk =>
            match E.jj.ScalarMult esk g_d with
            | .error _ => .panic .nilDereference
            | .ok computedEPK =>
              if !E.jj.Equals computedEPK epk then
                .ret (none, some .epkMismatch)
              else
                DecryptNote.memoAndReturn note plaintext
  else
    .ret (none, some .nonStandardPlaintext)

/-- The function `DecryptNote`.  A nil scalar handed to `ScalarMult` and a
method called on a nil point (both possible only where the source discards an
error) are nil dereferences. -/
def DecryptNote (E : Env) (ivk : E.jj.Scalar) (epk : E.jj.Point) (_cmu : E.jj.FieldElement)
    (ciphertext : List Byte) : Outcome (GoRet (Note E.jj)) :=
  match saplingKeyAgreement E ivk epk with
  | .panic p => .panic p
  | .ret sharedSecret =>
    match saplingKDF E sharedSecret epk with
    | .panic p => .panic p
    | .ret key =>
      let nonce := make 12
      match E.aead.New key with
      | some err => .ret (none, some (.lib err))
      | none =>
        match E.aead.Open key nonce ciphertext [] with
        | .error err => .ret (none, some (.lib err))
        | .ok plaintext =>
          match index plaintext 0 with
          | none => .panic .outOfRange
          | some version =>
            let note : Note E.jj := { version := version }
            match slice plaintext 1 12 with
            | none => .panic .outOfRange
            | some src =>
              let d := copy (make 11) src
              match NewPaymentAddress E d ivk with
              | .panic p => .panic p
              | .ret (_, some err) => .ret (none, some err)
              | .ret (none, none) => .panic .nilDereference
              | .ret (some recipient, none) =>
                let note := { note with recipient := some recipient }
                match slice plaintext 12 20 with
                | none => .panic .outOfRange
                | some v =>
                  let note := { note with value := Uint64 v }
                  DecryptNote.versionSwitch E epk note recipient.g_d plaintext

/-! ## Package sapling: output descriptions -/

/-- The struct `OutputDescription`; a nil slice is the empty list. -/
structure OutputDescription where
  cv : List Byte := []
  cmu : List Byte := []
  epk : List Byte := []
  encCiphertext : List Byte := []
  outCiphertext : List Byte := []
  zkp : List Byte := []
  deriving DecidableEq, Repr

/-- The constant `OutputDescriptionLength`. -/
def OutputDescriptionLength : Nat := 948

/-- The method `OutputDescription.UnmarshalBinary`: the receiver afterwards and
the error. -/
def OutputDescription.UnmarshalBinary (od : OutputDescription) (data : List Byte) :
    OutputDescription × Option GoError :=
  if data.length ≠ OutputDescriptionLength then (od, some .odWrongSize) else
  match bytecrypto.ReadBytes data 32 with
  | none => (od, some (.odRead 0))
  | some (cv, s) =>
    let od := { od with cv := cv }
    match bytecrypto.ReadBytes s 32 with
    | none => (od, some (.odRead 1))
    | some (cmu, s) =>
      let od := { od with cmu := cmu }
      match bytecrypto.ReadBytes s 32 with
      | none => (od, some (.odRead 2))
      | some (epk, s) =>
        let od := { od with epk := epk }
        match bytecrypto.ReadBytes s 580 with
        | none => (od, some (.odRead 3))
        | some (encCiphertext, s) =>
          let od := { od with encCiphertext := encCiphertext }
          match bytecrypto.ReadBytes s 80 with
          | none => (od, some (.odRead 4))
          | some (outCiphertext, s) =>
            let od := { od with outCiphertext := outCiphertext }
            match bytecrypto.ReadBytes s 192 with
            | none => (od, some (.odRead 5))
            | some (zkp, s) =>
              let od := { od with zkp := zkp }
              if !bytecrypto.Empty s then (od, some .odLeftover) else (od, none)

/-! ## Package sapling: the incoming viewing key -/

/-- The function `deriveIVK`.  The statement `ivk[31] &= 0b0000_0111` indexes
the digest, which panics on a digest of fewer than 32 bytes. -/
def deriveIVK (E : Env) (ak nk : List Byte) : Outcome (List Byte) :=
  match E.blake2s.NewDigest ZcashIVKPersonality 32 with
  | some _ => .panic .blake2sInit
  | none =>
    let ivk := E.blake2s.Sum ZcashIVKPersonality 32 (ak ++ nk)
    match index ivk 31 with
    | none => .panic .outOfRange
    | some b => .ret (ivk.set 31 (b &&& 0b00000111))

/-- The method `ViewingKey.Ivk`. -/
def ViewingKey.Ivk (E : Env) (vk : ViewingKey) : Outcome (List Byte) :=
  deriveIVK E vk.ak vk.nk

/-- The method `ViewingKey.Ovk`. -/
def ViewingKey.Ovk (vk : ViewingKey) : List Byte :=
  copy (make vk.ovk.length) vk.ovk

/-! ## The wire layouts of the specification, as encoders

The repository only decodes.  For the round-trip statements the layouts of the
specification are written as encoders; the four bytes of an integer field are
written by a function `put`, which the statements tie to the byte order of the
reader. -/

/-- Four bytes for a 32-bit integer, most significant byte first. -/
def specPutUint32 (n : Nat) : List Byte :=
  [n / 2 ^ 24 % 256, n / 2 ^ 16 % 256, n / 2 ^ 8 % 256, n % 256]

/-- Four bytes for a 32-bit integer, least significant byte first. -/
def specPutUint32LE (n : Nat) : List Byte :=
  [n % 256, n / 2 ^ 8 % 256, n / 2 ^ 16 % 256, n / 2 ^ 24 % 256]

/-- The extended viewing-key layout of the specification:
`depth(1) ‖ parentFVKTag(4) ‖ childIndex(4) ‖ chaincode(32) ‖ ak(32) ‖ nk(32) ‖
ovk(32) ‖ dk(32)`. -/
def specEncodeEFVK (put : Nat → List Byte) (depth parentFVKTag childIndex : Nat)
    (chaincode ak nk ovk dk : List Byte) : List Byte :=
  [depth] ++ put parentFVKTag ++ put childIndex ++ chaincode ++ ak ++ nk ++ ovk ++ dk

/-- The output-description layout of the specification:
`cv(32) ‖ cmu(32) ‖ epk(32) ‖ encCiphertext(580) ‖ outCiphertext(80) ‖ zkp(192)`. -/
def specEncodeOutputDescription (od : OutputDescription) : List Byte :=
  od.cv ++ od.cmu ++ od.epk ++ od.encCiphertext ++ od.outCiphertext ++ od.zkp

/-- The little-endian value of a byte string, least significant byte first. -/
def specLittleEndian : List Byte → Nat
  | [] => 0
  | b :: rest => b + 256 * specLittleEndian rest

/-! ## A small instance of the imported libraries

The instance is used to run the embedded code on concrete inputs.  Its curve is
the additive group of the integers modulo 104 (cofactor 8, prime order 13); a
number from 104 on stands for an off-curve point. -/

/-- The small curve. -/
@[reducible]
def toyJubjub : Jubjub where
  Scalar := Nat
  Point := Nat
  FieldElement := Nat
  ScalarFromBytes := fun b =>
    (some (b.sum % 13), if 13 ≤ b.sum then some LibError.ErrScalarOutOfRange else none)
  Decompress := fun b => if b.headD 0 < 104 then .ok (b.headD 0) else .error (.other 1)
  ScalarMult := fun s p => if p < 104 then .ok (s * p % 104) else .error (.other 2)
  MulByCofactor := fun p => if p < 104 then 8 * p % 104 else p
  IsOnCurve := fun p => decide (p < 104)
  IsIdentity := fun p => p == 0
  Compress := fun p => p :: List.replicate 31 0
  Equals := fun p q => p == q

/-- A small keyed digest: a rolling sum of the bytes written, started from the
personalisation, in the first byte of the output.  Personalisations longer than
`maxPersonal` and sizes above `maxSize` are refused. -/
def toyBlake2 (maxPersonal maxSize : Nat) : Blake2 where
  NewDigest := fun personal size =>
    if personal.length ≤ maxPersonal ∧ size ≤ maxSize then none else some (.other 3)
  Write := fun _ => none
  Sum := fun personal size data =>
    (data.foldl (fun acc b => (acc * 3 + b + 1) % 251) (personal.sum % 251)) ::
      List.replicate (size - 1) 0

/-- A digest whose output is all zeros. -/
def zeroBlake2 : Blake2 where
  NewDigest := fun _ _ => none
  Write := fun _ => none
  Sum := fun _ size _ => List.replicate size 0

/-- A small AEAD: the ciphertext is the plaintext followed by a tag of 16
copies of the first key byte. -/
def toyAead : Chacha20Poly1305 where
  New := fun key => if key.length = 32 then none else some (.other 4)
  Open := fun key _nonce ciphertext _ad =>
    if 16 ≤ ciphertext.length ∧
        ciphertext.drop (ciphertext.length - 16) = List.replicate 16 (key.headD 0) then
      .ok (ciphertext.take (ciphertext.length - 16))
    else .error (.other 5)

/-- A small codec: the part before the first `1` is the human-readable part,
each later character is one data value, and regrouping keeps the values. -/
def toyZech32 : Zech32 where
  Decode := fun s =>
    match s.toList.dropWhile (fun c => c != '1') with
    | [] => .error (.other 6)
    | _ :: rest =>
      .ok (String.mk (s.toList.takeWhile (fun c => c != '1')), rest.map (fun c => c.toNat % 32))
  ConvertBits := fun data fromBits _toBits _pad =>
    if data.all (fun b => b < 2 ^ fromBits) then .ok data else .error (.other 7)

/-- The small instance. -/
@[reducible]
def toyEnv : Env where
  jj := toyJubjub
  blake2s := toyBlake2 8 32
  blake2b := toyBlake2 16 64
  aead := toyAead
  zech32 := toyZech32

/-- A hasher over the small curve whose digest is all zeros: every attempt
decompresses to the identity. -/
@[reducible]
def zeroHasher : GroupHasher :=
  { curve := toyJubjub, blake2s := zeroBlake2, domain := ZcashDiversifyPersonality }

/-- The hasher that `findBasepoint` makes in the small instance. -/
@[reducible]
def toyHasher : GroupHasher :=
  { curve := toyJubjub, blake2s := toyBlake2 8 32, domain := ZcashDiversifyPersonality }

/-- A hasher over the small curve with a domain tag of nine bytes. -/
@[reducible]
def longTagHasher : GroupHasher :=
  { curve := toyJubjub, blake2s := toyBlake2 8 32, domain := bytesOf "Zcash_gd2" }

/-- A diversifier whose digest is a point in the small instance. -/
def toyDiversifier : List Byte := List.replicate 11 3

/-- A memo of 512 bytes whose last byte is not zero. -/
def toyMemo : List Byte := [246] ++ List.replicate 510 0 ++ [9]

/-- A note plaintext of 564 bytes with version byte 0x01: the diversifier, the
value 5, the scalar encoding `4, 0, ..., 0` and the memo. -/
def toyPlaintextV1 : List Byte :=
  [1] ++ toyDiversifier ++ [5, 0, 0, 0, 0, 0, 0, 0] ++ ([4] ++ List.replicate 31 0) ++ toyMemo

/-- The ciphertext of 580 bytes of `toyPlaintextV1` in the small instance, for
the scalar 3 and the ephemeral key 8. -/
def toyCiphertextV1 : List Byte := toyPlaintextV1 ++ List.replicate 16 63

/-- A note plaintext of 564 bytes with version byte 0x02: the diversifier, the
value 5, the seed `7, 0, ..., 0` and the memo. -/
def toyPlaintextV2 : List Byte :=
  [2] ++ toyDiversifier ++ [5, 0, 0, 0, 0, 0, 0, 0] ++ ([7] ++ List.replicate 31 0) ++ toyMemo

/-- The ciphertext of 580 bytes of `toyPlaintextV2` in the small instance, for
the scalar 3 and the ephemeral key 16, which is the key derived from the seed. -/
def toyCiphertextV2 : List Byte := toyPlaintextV2 ++ List.replicate 16 165

/-- The ciphertext of 580 bytes of `toyPlaintextV2` in the small instance, for
the scalar 3 and the ephemeral key 8, which is not the key derived from the seed. -/
def toyCiphertextV2Other : List Byte := toyPlaintextV2 ++ List.replicate 16 63

/-- A digest whose output bytes are all 255. -/
def fullBlake2 : Blake2 where
  NewDigest := fun _ _ => none
  Write := fun _ => none
  Sum := fun _ size _ => List.replicate size 255

/-- The small instance with the all-255 digest as `blake2s`. -/
@[reducible]
def fullDigestEnv : Env where
  jj := toyJubjub
  blake2s := fullBlake2
  blake2b := toyBlake2 16 64
  aead := toyAead
  zech32 := toyZech32

/-- A note plaintext of 564 bytes with version byte 0x01 whose scalar encoding
`20, 0, ..., 0` is out of range in the small instance. -/
def toyPlaintextV1OutOfRange : List Byte :=
  [1] ++ toyDiversifier ++ [5, 0, 0, 0, 0, 0, 0, 0] ++ ([20] ++ List.replicate 31 0) ++ toyMemo

/-- The ciphertext of 580 bytes of `toyPlaintextV1OutOfRange` in the small
instance, for the scalar 3 and the ephemeral key 8. -/
def toyCiphertextV1OutOfRange : List Byte := toyPlaintextV1OutOfRange ++ List.replicate 16 63

/-- A note plaintext of 564 bytes with version byte 0x03. -/
def toyPlaintextV3 : List Byte :=
  [3] ++ toyDiversifier ++ [5, 0, 0, 0, 0, 0, 0, 0] ++ ([4] ++ List.replicate 31 0) ++ toyMemo

/-- The ciphertext of 580 bytes of `toyPlaintextV3` in the small instance, for
the scalar 3 and the ephemeral key 8. -/
def toyCiphertextV3 : List Byte := toyPlaintextV3 ++ List.replicate 16 63

/-- An output description of 948 bytes: the bytes 0, 1, ..., 255, 0, 1, ... -/
def toyOutputDescription : List Byte := (List.range 948).map (fun i => i % 256)

/-- The small curve with a `ScalarFromBytes` that refuses an encoding whose
first byte is odd: it returns a nil scalar and an error. -/
@[reducible]
def refusingJubjub : Jubjub where
  Scalar := Nat
  Point := Nat
  FieldElement := Nat
  ScalarFromBytes := fun b =>
    if b.headD 0 % 2 = 1 then (none, some (.other 8)) else toyJubjub.ScalarFromBytes b
  Decompress := toyJubjub.Decompress
  ScalarMult := toyJubjub.ScalarMult
  MulByCofactor := toyJubjub.MulByCofactor
  IsOnCurve := toyJubjub.IsOnCurve
  IsIdentity := toyJubjub.IsIdentity
  Compress := toyJubjub.Compress
  Equals := toyJubjub.Equals

/-- The small instance with the refusing `ScalarFromBytes`. -/
@[reducible]
def refusingEnv : Env where
  jj := refusingJubjub
  blake2s := toyBlake2 8 32
  blake2b := toyBlake2 16 64
  aead := toyAead
  zech32 := toyZech32

/-! ## Theorems: package grouphash -/

/-- The two shapes of a result of `Hash`: a point that is the cofactor multiple
of the decompressed digest, on-curve and not the identity; or no point and an
error, which is `ErrContinue` whenever the digest was made and decompressed. -/
theorem GroupHasher.Hash_cases (hasher : GroupHasher) (msg : List Byte) :
    (∃ q, hasher.blake2s.NewDigest hasher.domain 32 = none ∧
        hasher.blake2s.Write urs = none ∧ hasher.blake2s.Write msg = none ∧
        hasher.curve.Decompress (hasher.blake2s.Sum hasher.domain 32 (urs ++ msg)) = .ok q ∧
        hasher.curve.IsOnCurve (hasher.curve.MulByCofactor q) = true ∧
        hasher.curve.IsIdentity (hasher.curve.MulByCofactor q) = false ∧
        hasher.Hash msg = (some (hasher.curve.MulByCofactor q), none)) ∨
    (∃ e, hasher.Hash msg = (none, some e) ∧ e ≠ GoError.ErrFailed ∧
        (∀ err, hasher.blake2s.NewDigest hasher.domain 32 = some err → e = .lib err) ∧
        ∀ q, hasher.blake2s.NewDigest hasher.domain 32 = none →
          hasher.blake2s.Write urs = none → hasher.blake2s.Write msg = none →
          hasher.curve.Decompress (hasher.blake2s.Sum hasher.domain 32 (urs ++ msg)) = .ok q →
          e = GoError.ErrContinue ∧
            (hasher.curve.IsOnCurve (hasher.curve.MulByCofactor q) = false ∨
              hasher.curve.IsIdentity (hasher.curve.MulByCofactor q) = true)) := by
  cases h1 : hasher.blake2s.NewDigest hasher.domain 32 with
  | some e1 =>
    exact Or.inr ⟨.lib e1, by simp [GroupHasher.Hash, h1], by simp, by simp, by simp⟩
  | none =>
    cases h2 : hasher.blake2s.Write urs with
    | some e2 =>
      exact Or.inr ⟨.lib e2, by simp [GroupHasher.Hash, h1, h2], by simp, by simp, by simp⟩
    | none =>
      cases h3 : hasher.blake2s.Write msg with
      | some e3 =>
        exact Or.inr ⟨.lib e3, by simp [GroupHasher.Hash, h1, h2, h3], by simp, by simp, by simp⟩
      | none =>
        cases h4 : hasher.curve.Decompress (hasher.blake2s.Sum hasher.domain 32 (urs ++ msg)) with
        | error e4 =>
          exact Or.inr ⟨.lib e4, by simp [GroupHasher.Hash, h1, h2, h3, h4], by simp, by simp, by simp⟩
        | ok q =>
          cases hon : hasher.curve.IsOnCurve (hasher.curve.MulByCofactor q) with
          | false =>
            refine Or.inr ⟨GoError.ErrContinue, by simp [GroupHasher.Hash, h1, h2, h3, h4, hon],
              by simp, by simp, ?_⟩
            intro q2 _ _ _ hq
            cases hq
            exact ⟨rfl, Or.inl hon⟩
          | true =>
            cases hid : hasher.curve.IsIdentity (hasher.curve.MulByCofactor q) with
            | true =>
              refine Or.inr ⟨GoError.ErrContinue,
                by simp [GroupHasher.Hash, h1, h2, h3, h4, hon, hid], by simp, by simp, ?_⟩
              intro q2 _ _ _ hq
              cases hq
              exact ⟨rfl, Or.inr hid⟩
            | false =>
              exact Or.inl ⟨q, rfl, rfl, rfl, rfl, hon, hid,
                by simp [GroupHasher.Hash, h1, h2, h3, h4, hon, hid]⟩

/-- One turn of the loop of FindGroupHash at an index that `Hash` rejects with
`ErrContinue`: the loop goes on with the next index modulo 256. -/
theorem GroupHasher.FindGroupHashLoop_continue (hasher : GroupHasher) (msg : List Byte)
    (fuel i : Nat) (hi : i ≤ 255)
    (h : (hasher.Hash (msg ++ [i])).2 = some GoError.ErrContinue) :
    hasher.FindGroupHashLoop msg (fuel + 1) i =
      hasher.FindGroupHashLoop msg fuel ((i + 1) % 256) := by
  rw [GroupHasher.FindGroupHashLoop]
  rw [if_pos hi]
  rcases hH : hasher.Hash (msg ++ [i]) with ⟨p, e⟩
  rw [hH] at h
  simp only at h
  subst h
  simp only [hH]

/-- One turn of the loop of FindGroupHash at an index where `Hash` returns
anything but `ErrContinue`: the loop returns the point of `Hash` and a nil
error. -/
theorem GroupHasher.FindGroupHashLoop_return (hasher : GroupHasher) (msg : List Byte)
    (fuel i : Nat) (hi : i ≤ 255)
    (h : (hasher.Hash (msg ++ [i])).2 ≠ some GoError.ErrContinue) :
    hasher.FindGroupHashLoop msg (fuel + 1) i = some ((hasher.Hash (msg ++ [i])).1, none) := by
  rw [GroupHasher.FindGroupHashLoop]
  rw [if_pos hi]
  rcases hH : hasher.Hash (msg ++ [i]) with ⟨p, e⟩
  rw [hH] at h
  simp only at h
  simp only [hH]

/-- The loop skips a run of rejected indices. -/
theorem GroupHasher.FindGroupHashLoop_skip (hasher : GroupHasher) (msg : List Byte) (fuel : Nat) :
    ∀ n i, i + n ≤ 255 →
      (∀ j, i ≤ j → j < i + n → (hasher.Hash (msg ++ [j])).2 = some GoError.ErrContinue) →
      hasher.FindGroupHashLoop msg (n + fuel) i = hasher.FindGroupHashLoop msg fuel (i + n) := by
  intro n
  induction n with
  | zero => intro i _ _; simp
  | succ n ih =>
    intro i hin hrej
    have h1 : n + 1 + fuel = (n + fuel) + 1 := by omega
    rw [h1, GroupHasher.FindGroupHashLoop_continue hasher msg (n + fuel) i (by omega)
      (hrej i (le_refl _) (by omega))]
    have h2 : (i + 1) % 256 = i + 1 := Nat.mod_eq_of_lt (by omega)
    rw [h2, ih (i + 1) (by omega) (fun j hj1 hj2 => hrej j (by omega) (by omega))]
    congr 1
    omega

/-- The result of FindGroupHash when some index below 256 is not rejected with
`ErrContinue`: with enough fuel it returns, at the first such index, the point
of `Hash` there and a nil error. -/
theorem GroupHasher.FindGroupHash_first (hasher : GroupHasher) (msg : List Byte) (i : Nat)
    (hi : i ≤ 255)
    (hrej : ∀ j, j < i → (hasher.Hash (msg ++ [j])).2 = some GoError.ErrContinue)
    (hacc : (hasher.Hash (msg ++ [i])).2 ≠ some GoError.ErrContinue)
    (fuel : Nat) (hfuel : i < fuel) :
    hasher.FindGroupHash msg fuel = some ((hasher.Hash (msg ++ [i])).1, none) := by
  unfold GroupHasher.FindGroupHash
  obtain ⟨k, rfl⟩ : ∃ k, fuel = i + (k + 1) := ⟨fuel - i - 1, by omega⟩
  rw [GroupHasher.FindGroupHashLoop_skip hasher msg (k + 1) i 0 (by omega)
    (fun j _ hj => hrej j (by omega))]
  rw [Nat.zero_add]
  exact GroupHasher.FindGroupHashLoop_return hasher msg k i hi hacc

/-- When every index is rejected, the loop never leaves: whatever the fuel and
the index it starts from, it is still running, and it has called `Hash` once
per unit of fuel. -/
theorem GroupHasher.FindGroupHashLoop_all_rejected (hasher : GroupHasher) (msg : List Byte)
    (h : ∀ i, i < 256 → (hasher.Hash (msg ++ [i])).2 = some GoError.ErrContinue) :
    ∀ fuel i, i < 256 →
      hasher.FindGroupHashLoop msg fuel i = none ∧ hasher.hashCalls msg fuel i = fuel := by
  intro fuel
  induction fuel with
  | zero => intro i _; exact ⟨rfl, rfl⟩
  | succ fuel ih =>
    intro i hi
    have hnext := ih ((i + 1) % 256) (Nat.mod_lt _ (by norm_num))
    refine ⟨?_, ?_⟩
    · rw [GroupHasher.FindGroupHashLoop_continue hasher msg fuel i (by omega) (h i hi)]
      exact hnext.1
    · rw [GroupHasher.hashCalls, if_pos (by omega)]
      rcases hH : hasher.Hash (msg ++ [i]) with ⟨p, e⟩
      have he := h i hi
      rw [hH] at he
      simp only at he
      subst he
      simp only [hnext.2]

/-- C3 (the code diverges from the claim): when all 256 indices are rejected
with `ErrContinue`, FindGroupHash does not return `ErrFailed` after 256 calls of
`Hash`: the counter wraps from 255 to 0, so for every fuel the loop is still
running and has called `Hash` once per unit of fuel. -/
theorem FindGroupHash_all_rejected_never_returns (hasher : GroupHasher) (msg : List Byte)
    (h : ∀ i, i < 256 → (hasher.Hash (msg ++ [i])).2 = some GoError.ErrContinue)
    (fuel : Nat) :
    hasher.FindGroupHash msg fuel = none ∧ hasher.hashCalls msg fuel 0 = fuel :=
  GroupHasher.FindGroupHashLoop_all_rejected hasher msg h fuel 0 (by norm_num)

/-- C3, at a concrete input: with the all-zero digest every index is rejected,
and after 1000 turns FindGroupHash on the message `[1, 2, 3]` has called `Hash`
1000 times and has not returned. -/
theorem FindGroupHash_all_rejected_never_returns_witness :
    (∀ i, i < 256 → (zeroHasher.Hash ([1, 2, 3] ++ [i])).2 = some GoError.ErrContinue) ∧
      (zeroHasher.FindGroupHash [1, 2, 3] 1000 = none ∧
        zeroHasher.hashCalls [1, 2, 3] 1000 0 = 1000) :=
  ⟨fun _ _ => rfl,
    FindGroupHash_all_rejected_never_returns zeroHasher [1, 2, 3] (fun _ _ => rfl) 1000⟩

/-- C4 (the code diverges from the claim): when the first index that `Hash`
does not reject with `ErrContinue` is one where `Hash` fails with an error of a
library (the digest does not decompress, say), FindGroupHash returns a nil point
together with a nil error. -/
theorem FindGroupHash_returns_nil_point_nil_error (hasher : GroupHasher) (msg : List Byte)
    (i : Nat) (hi : i ≤ 255) (e : LibError)
    (hrej : ∀ j, j < i → (hasher.Hash (msg ++ [j])).2 = some GoError.ErrContinue)
    (hfail : hasher.Hash (msg ++ [i]) = (none, some (.lib e)))
    (fuel : Nat) (hfuel : i < fuel) :
    hasher.FindGroupHash msg fuel = some (none, none) := by
  have h := GroupHasher.FindGroupHash_first hasher msg i hi hrej (by rw [hfail]; simp) fuel hfuel
  rw [hfail] at h
  exact h

set_option maxRecDepth 100000 in
/-- C4, at a concrete input: in the small instance the digest of the message of
eleven bytes 6 with index 0 does not decompress, and FindGroupHash returns a nil
point and a nil error. -/
theorem FindGroupHash_returns_nil_point_nil_error_witness :
    toyHasher.Hash (List.replicate 11 6 ++ [0]) = (none, some (.lib (.other 1))) ∧
      toyHasher.FindGroupHash (List.replicate 11 6) 1 = some (none, none) :=
  ⟨by decide,
    FindGroupHash_returns_nil_point_nil_error toyHasher (List.replicate 11 6) 0 (by decide)
      (.other 1) (fun j hj => absurd hj (Nat.not_lt_zero j)) (by decide) 1 (by decide)⟩

set_option maxRecDepth 100000 in
/-- C5, counterexample: `Hash` can fail with an error that is not `ErrContinue`.
With a domain tag of nine bytes the digest cannot be made, and with the message
of eleven bytes 0 the digest does not decompress; both times `Hash` returns no
point and the error of the library. -/
theorem Hash_fails_with_other_error :
    (longTagHasher.Hash [] = (none, some (.lib (.other 3))) ∧
      (longTagHasher.Hash []).2 ≠ some GoError.ErrContinue) ∧
    (toyHasher.Hash (List.replicate 11 0) = (none, some (.lib (.other 1))) ∧
      (toyHasher.Hash (List.replicate 11 0)).2 ≠ some GoError.ErrContinue) := by
  decide

/-- C5, amended: for every domain tag and input, `Hash` either returns the point
`MulByCofactor(Decompress(digest32(tag, urs ‖ input)))`, which is then on-curve
and not the identity, or it returns no point and an error.  An error of making
the digest is passed on, and when the digest is made and decompresses the error
is `ErrContinue`, returned because the cofactor multiple is off-curve or the
identity: the cofactor multiplication comes after the decompression and before
that test. -/
theorem Hash_point_or_error (hasher : GroupHasher) (msg : List Byte) :
    (∃ q, hasher.curve.Decompress (hasher.blake2s.Sum hasher.domain 32 (urs ++ msg)) = .ok q ∧
        hasher.Hash msg = (some (hasher.curve.MulByCofactor q), none) ∧
        hasher.curve.IsOnCurve (hasher.curve.MulByCofactor q) = true ∧
        hasher.curve.IsIdentity (hasher.curve.MulByCofactor q) = false) ∨
    (∃ e, hasher.Hash msg = (none, some e) ∧
        (∀ err, hasher.blake2s.NewDigest hasher.domain 32 = some err → e = .lib err) ∧
        ∀ q, hasher.blake2s.NewDigest hasher.domain 32 = none →
          hasher.blake2s.Write urs = none → hasher.blake2s.Write msg = none →
          hasher.curve.Decompress (hasher.blake2s.Sum hasher.domain 32 (urs ++ msg)) = .ok q →
          e = GoError.ErrContinue ∧
            (hasher.curve.IsOnCurve (hasher.curve.MulByCofactor q) = false ∨
              hasher.curve.IsIdentity (hasher.curve.MulByCofactor q) = true)) := by
  rcases GroupHasher.Hash_cases hasher msg with ⟨q, _, _, _, h4, h5, h6, h7⟩ | ⟨e, h1, _, h3, h4⟩
  · exact Or.inl ⟨q, h4, h7, h5, h6⟩
  · exact Or.inr ⟨e, h1, h3, h4⟩

/-! ## Theorems: payment addresses -/

set_option maxRecDepth 100000 in
/-- C6, counterexample: for the diversifier of eleven bytes 2 in the small
instance, FindGroupHash with the diversify tag returns a point (the digest of
`d ‖ 0`), while `findBasepoint` hashes `d` itself and fails with `ErrContinue`,
which is not `ErrFailed`. -/
theorem findBasepoint_differs_from_FindGroupHash :
    toyHasher.FindGroupHash (List.replicate 11 2) 1 = some (some 80, none) ∧
      findBasepoint toyEnv (List.replicate 11 2) = (none, some GoError.ErrContinue) := by
  decide

/-- C6, amended: for every diversifier `d`, `findBasepoint(d)` is the result of
one call of `Hash` on the message `d` with the diversify domain tag (no index is
appended and nothing is retried): either the cofactor multiple of the
decompressed digest, on-curve and not the identity, with a nil error, or no
point and an error, which is never `ErrFailed`. -/
theorem findBasepoint_is_one_Hash (E : Env) (d : List Byte) :
    findBasepoint E d = (NewGroupHasher E ZcashDiversifyPersonality).1.Hash d ∧
    ((∃ q, E.jj.Decompress (E.blake2s.Sum ZcashDiversifyPersonality 32 (urs ++ d)) = .ok q ∧
        findBasepoint E d = (some (E.jj.MulByCofactor q), none) ∧
        E.jj.IsOnCurve (E.jj.MulByCofactor q) = true ∧
        E.jj.IsIdentity (E.jj.MulByCofactor q) = false) ∨
      (∃ e, findBasepoint E d = (none, some e) ∧ e ≠ GoError.ErrFailed)) := by
  refine ⟨rfl, ?_⟩
  rcases GroupHasher.Hash_cases (NewGroupHasher E ZcashDiversifyPersonality).1 d with
    ⟨q, _, _, _, h4, h5, h6, h7⟩ | ⟨e, h1, h2, _⟩
  · exact Or.inl ⟨q, h4, h7, h5, h6⟩
  · exact Or.inr ⟨e, h1, h2⟩

/-! ## Theorems: viewing keys -/

/-- On an input of 169 bytes the EFVK decoder reports no error and fills the
fields with consecutive parts of the input. -/
theorem saplingExtendedFullViewingKey.UnmarshalBinary_of_length
    (evk : saplingExtendedFullViewingKey) (B : ByteOrder) (data : List Byte)
    (h : data.length = 169) :
    evk.UnmarshalBinary B data =
      ({ depth := data.getD 0 0,
         parentFVKTag := B.uint32 ((data.drop 1).take 4),
         childIndex := B.uint32 ((data.drop 5).take 4),
         chaincode := (data.drop 9).take 32,
         vk := { ak := (data.drop 41).take 32, nk := (data.drop 73).take 32,
                 ovk := (data.drop 105).take 32 },
         dk := (data.drop 137).take 32 }, none) := by
  simp [saplingExtendedFullViewingKey.UnmarshalBinary, SaplingExtendedFullViewingKeyLength,
    bytecrypto.ReadUint8, bytecrypto.ReadUint32, bytecrypto.ReadBytes, bytecrypto.Empty, h,
    List.getD_eq_getElem?_getD]

/-- C2 (the code diverges from the claim): for every string that decodes with
the human-readable part `zxviews` to a payload of 169 bytes, the EFVK decoder
reads `ak`, `nk` and `ovk` from payload bytes 41..73, 73..105 and 105..137
without error, but `NewViewingKey` then returns a nil key together with a nil
error. -/
theorem NewViewingKey_returns_nil_key (B : ByteOrder) (Z : Zech32) (encoded : String)
    (decoded data : List Byte)
    (hdec : Z.Decode encoded = .ok ("zxviews", decoded))
    (hconv : Z.ConvertBits decoded 5 8 false = .ok data)
    (hlen : data.length = 169) :
    NewViewingKey B Z encoded = (none, none) ∧
      (({} : saplingExtendedFullViewingKey).UnmarshalBinary B data).1.vk =
        { ak := (data.drop 41).take 32, nk := (data.drop 73).take 32,
          ovk := (data.drop 105).take 32 } := by
  have h := saplingExtendedFullViewingKey.UnmarshalBinary_of_length {} B data hlen
  refine ⟨?_, by rw [h]⟩
  simp only [NewViewingKey, hdec, hconv, h]
  simp

set_option maxRecDepth 100000 in
/-- C2, at a concrete input: in the small instance the string `zxviews1`
followed by 169 letters `q` decodes to a payload of 169 bytes, and
`NewViewingKey` returns a nil key and a nil error. -/
theorem NewViewingKey_returns_nil_key_witness :
    toyZech32.Decode "zxviews1qqqqqqqqqqqqqqqqqqqqqqqqqqqqqqqqqqqqqqqqqqqqqqqqqqqqqqqqqqqqqqqqqqqqqqqqqqqqqqqqqqqqqqqqqqqqqqqqqqqqqqqqqqqqqqqqqqqqqqqqqqqqqqqqqqqqqqqqqqqqqqqqqqqqqqqqqqqqqqqqqqqqqqqqq" = .ok ("zxviews", List.replicate 169 17) ∧
      NewViewingKey bigEndian toyZech32 "zxviews1qqqqqqqqqqqqqqqqqqqqqqqqqqqqqqqqqqqqqqqqqqqqqqqqqqqqqqqqqqqqqqqqqqqqqqqqqqqqqqqqqqqqqqqqqqqqqqqqqqqqqqqqqqqqqqqqqqqqqqqqqqqqqqqqqqqqqqqqqqqqqqqqqqqqqqqqqqqqqqqqqqqqqqqqq" = (none, none) :=
  ⟨rfl, (NewViewingKey_returns_nil_key bigEndian toyZech32 "zxviews1qqqqqqqqqqqqqqqqqqqqqqqqqqqqqqqqqqqqqqqqqqqqqqqqqqqqqqqqqqqqqqqqqqqqqqqqqqqqqqqqqqqqqqqqqqqqqqqqqqqqqqqqqqqqqqqqqqqqqqqqqqqqqqqqqqqqqqqqqqqqqqqqqqqqqqqqqqqqqqqqqqqqqqqqq" (List.replicate 169 17)
    (List.replicate 169 17) rfl rfl (List.length_replicate _ _)).1⟩

/-! ## Theorems: notes -/

/-- Copying a source of exactly `n` bytes into `make([]byte, n)` gives the source. -/
theorem copy_make_of_length (n : Nat) (src : List Byte) (h : src.length = n) :
    copy (make n) src = src := by
  simp [copy, make, h]

/-- Copying a shorter source into `make([]byte, n)` leaves zeros after it. -/
theorem copy_make_of_le (n : Nat) (src : List Byte) (h : src.length ≤ n) :
    copy (make n) src = src ++ List.replicate (n - src.length) 0 := by
  simp [copy, make, h, Nat.min_eq_right h]

/-- A slice expression that does not panic: its bounds and its value. -/
theorem slice_eq_some {s : List Byte} {lo hi : Nat} {r : List Byte}
    (h : slice s lo hi = some r) :
    lo ≤ hi ∧ hi ≤ s.length ∧ r = (s.take hi).drop lo ∧ r.length = hi - lo := by
  unfold slice at h
  split at h
  · rename_i hc
    cases h
    refine ⟨hc.1, hc.2, rfl, ?_⟩
    simp [Nat.min_eq_left hc.2]
  · cases h

/-- A slice expression within the length of the slice. -/
theorem slice_of_le (s : List Byte) (lo hi : Nat) (h1 : lo ≤ hi) (h2 : hi ≤ s.length) :
    slice s lo hi = some ((s.take hi).drop lo) := by
  simp [slice, h1, h2]

/-- A slice expression beyond the length of the slice panics. -/
theorem slice_of_lt (s : List Byte) (lo hi : Nat) (h : s.length < hi) :
    slice s lo hi = none := by
  simp [slice]
  omega

/-- The tail of DecryptNote on a plaintext of at least 512 bytes: the memo is
bytes 52..512 of the plaintext followed by 52 zero bytes. -/
theorem DecryptNote.memoAndReturn_of_le {J : Jubjub} (note : Note J) (pt : List Byte)
    (h : 512 ≤ pt.length) :
    DecryptNote.memoAndReturn note pt =
      .ret (some { note with memo := (pt.take 512).drop 52 ++ List.replicate 52 0 }, none) := by
  unfold DecryptNote.memoAndReturn
  rw [slice_of_le pt 52 512 (by norm_num) h]
  have hl : ((pt.take 512).drop 52).length = 460 := by
    simp [Nat.min_eq_left h]
  simp only
  rw [copy_make_of_le 512 _ (by omega), hl]

/-- The tail of DecryptNote on a plaintext of fewer than 512 bytes panics. -/
theorem DecryptNote.memoAndReturn_of_lt {J : Jubjub} (note : Note J) (pt : List Byte)
    (h : pt.length < 512) :
    DecryptNote.memoAndReturn note pt = .panic .outOfRange := by
  unfold DecryptNote.memoAndReturn
  rw [slice_of_lt pt 52 512 h]

/-- When the tail of DecryptNote returns a note, the plaintext has at least 512
bytes and the note is the given one with the memo set. -/
theorem DecryptNote.memoAndReturn_inv {J : Jubjub} (n0 note : Note J) (pt : List Byte)
    (hs : DecryptNote.memoAndReturn n0 pt = .ret (some note, none)) :
    512 ≤ pt.length ∧
      note = { n0 with memo := (pt.take 512).drop 52 ++ List.replicate 52 0 } := by
  by_cases h : 512 ≤ pt.length
  · rw [DecryptNote.memoAndReturn_of_le n0 pt h] at hs
    simp only [Outcome.ret.injEq, Prod.mk.injEq, Option.some.injEq, and_true] at hs
    exact ⟨h, hs.symm⟩
  · rw [DecryptNote.memoAndReturn_of_lt n0 pt (by omega)] at hs
    cases hs

/-- When the version switch of DecryptNote returns a note: the plaintext has at
least 512 bytes, the memo is bytes 52..512 followed by 52 zero bytes, and the
note was made by one of the two version cases. -/
theorem DecryptNote.versionSwitch_inv (E : Env) (epk : E.jj.Point) (n0 note : Note E.jj)
    (g_d : E.jj.Point) (pt : List Byte)
    (hs : DecryptNote.versionSwitch E epk n0 g_d pt = .ret (some note, none)) :
    512 ≤ pt.length ∧
    ((n0.version = BeforeZIP212 ∧
        ((E.jj.ScalarFromBytes ((pt.take 52).drop 20)).2 = none ∨
          (E.jj.ScalarFromBytes ((pt.take 52).drop 20)).2 = some .ErrScalarOutOfRange) ∧
        note = { n0 with rcm := (E.jj.ScalarFromBytes ((pt.take 52).drop 20)).1,
                         memo := (pt.take 512).drop 52 ++ List.replicate 52 0 }) ∨
      (n0.version = AfterZIP212 ∧
        ∃ forRcm forEsk esk computedEPK,
          prfExpand E ((pt.take 52).drop 20) prfExpandRcm = .ret forRcm ∧
          prfExpand E ((pt.take 52).drop 20) prfExpandEsk = .ret forEsk ∧
          (E.jj.ScalarFromBytes forEsk).1 = some esk ∧
          E.jj.ScalarMult esk g_d = .ok computedEPK ∧
          E.jj.Equals computedEPK epk = true ∧
          note = { n0 with rseed := (pt.take 52).drop 20,
                           rcm := (E.jj.ScalarFromBytes forRcm).1,
                           memo := (pt.take 512).drop 52 ++ List.replicate 52 0 })) := by
  unfold DecryptNote.versionSwitch at hs
  split at hs
  · rename_i hv
    cases hsl : slice pt 20 52 with
    | none => rw [hsl] at hs; cases hs
    | some b =>
      rw [hsl] at hs
      obtain ⟨_, _, rfl, _⟩ := slice_eq_some hsl
      simp only at hs
      split at hs
      · cases hs
      · rename_i herr
        obtain ⟨hlen, hnote⟩ := DecryptNote.memoAndReturn_inv _ _ _ hs
        refine ⟨hlen, Or.inl ⟨hv, ?_, hnote⟩⟩
        by_cases h1 : (E.jj.ScalarFromBytes ((pt.take 52).drop 20)).2 = none
        · exact Or.inl h1
        · by_cases h2 : (E.jj.ScalarFromBytes ((pt.take 52).drop 20)).2 =
              some LibError.ErrScalarOutOfRange
          · exact Or.inr h2
          · exact absurd ⟨h1, h2⟩ herr
  · split at hs
    · rename_i hv
      cases hsl : slice pt 20 52 with
      | none => rw [hsl] at hs; cases hs
      | some b =>
        rw [hsl] at hs
        obtain ⟨_, _, rfl, hbl⟩ := slice_eq_some hsl
        simp only at hs
        rw [copy_make_of_length 32 _ hbl] at hs
        cases h1 : prfExpand E ((pt.take 52).drop 20) prfExpandRcm with
        | panic q => rw [h1] at hs; cases hs
        | ret forRcm =>
          rw [h1] at hs
          simp only at hs
          cases h2 : prfExpand E ((pt.take 52).drop 20) prfExpandEsk with
          | panic q => rw [h2] at hs; cases hs
          | ret forEsk =>
            rw [h2] at hs
            simp only at hs
            cases h3 : (E.jj.ScalarFromBytes forEsk).1 with
            | none => rw [h3] at hs; cases hs
            | some esk =>
              rw [h3] at hs
              simp only at hs
              cases h4 : E.jj.ScalarMult esk g_d with
              | error e => rw [h4] at hs; cases hs
              | ok computedEPK =>
                rw [h4] at hs
                simp only at hs
                cases h5 : E.jj.Equals computedEPK epk with
                | false => rw [h5] at hs; simp at hs
                | true =>
                  rw [h5] at hs
                  simp only [Bool.not_true, Bool.false_eq_true, if_false] at hs
                  obtain ⟨hlen, hnote⟩ := DecryptNote.memoAndReturn_inv _ _ _ hs
                  exact ⟨hlen, Or.inr ⟨hv, forRcm, forEsk, esk, computedEPK, rfl, rfl, h3, h4,
                    h5, hnote⟩⟩
    · cases hs

/-- The version switch of DecryptNote for version 0x02 on a plaintext of at
least 512 bytes, once the seed is expanded, the scalar `esk` is decoded and the
ephemeral key is recomputed: the keys are compared, and the note is returned
when they are equal. -/
theorem DecryptNote.versionSwitch_v2 (E : Env) (epk : E.jj.Point) (n0 : Note E.jj)
    (g_d : E.jj.Point) (pt forRcm forEsk : List Byte) (esk : E.jj.Scalar)
    (computedEPK : E.jj.Point)
    (hv : n0.version = AfterZIP212) (hlen : 512 ≤ pt.length)
    (h1 : prfExpand E ((pt.take 52).drop 20) prfExpandRcm = .ret forRcm)
    (h2 : prfExpand E ((pt.take 52).drop 20) prfExpandEsk = .ret forEsk)
    (h3 : (E.jj.ScalarFromBytes forEsk).1 = some esk)
    (h4 : E.jj.ScalarMult esk g_d = .ok computedEPK) :
    DecryptNote.versionSwitch E epk n0 g_d pt =
      if E.jj.Equals computedEPK epk = true then
        .ret (some { n0 with rseed := (pt.take 52).drop 20,
                             rcm := (E.jj.ScalarFromBytes forRcm).1,
                             memo := (pt.take 512).drop 52 ++ List.replicate 52 0 }, none)
      else .ret (none, some .epkMismatch) := by
  unfold DecryptNote.versionSwitch
  have hne : ¬ n0.version = BeforeZIP212 := by rw [hv]; decide
  rw [if_neg hne, if_pos hv, slice_of_le pt 20 52 (by norm_num) (by omega)]
  have hbl : ((pt.take 52).drop 20).length = 32 := by
    simp [Nat.min_eq_left (show 52 ≤ pt.length by omega)]
  simp only
  rw [copy_make_of_length 32 _ hbl, h1]
  simp only
  rw [h2]
  simp only
  rw [h3]
  simp only
  rw [h4]
  simp only
  cases h5 : E.jj.Equals computedEPK epk with
  | false => simp
  | true =>
    simp only [Bool.not_true, Bool.false_eq_true, if_false, if_true]
    exact DecryptNote.memoAndReturn_of_le _ pt hlen

/-- What DecryptNote does once the key agreement, the key derivation and the
AEAD succeed on a plaintext of at least 20 bytes whose recipient is derived: it
continues with the version switch. -/
theorem DecryptNote_eq_versionSwitch (E : Env) (ivk : E.jj.Scalar) (epk : E.jj.Point)
    (cmu : E.jj.FieldElement) (ct : List Byte) (p : E.jj.Point) (key pt : List Byte)
    (recipient : PaymentAddress E.jj)
    (hka : E.jj.ScalarMult ivk epk = .ok p)
    (hkdf : saplingKDF E (E.jj.MulByCofactor p) epk = .ret key)
    (hnew : E.aead.New key = none)
    (hopen : E.aead.Open key (make 12) ct [] = .ok pt)
    (hlen : 20 ≤ pt.length)
    (hnpa : NewPaymentAddress E ((pt.take 12).drop 1) ivk = .ret (some recipient, none)) :
    DecryptNote E ivk epk cmu ct =
      DecryptNote.versionSwitch E epk
        { version := pt.getD 0 0, recipient := some recipient,
          value := Uint64 ((pt.take 20).drop 12) } recipient.g_d pt := by
  unfold DecryptNote
  simp only [saplingKeyAgreement, hka, hkdf, hnew, hopen]
  have hidx : index pt 0 = some (pt.getD 0 0) := by
    unfold index
    rw [if_pos (by omega)]
  rw [hidx]
  simp only
  rw [slice_of_le pt 1 12 (by norm_num) (by omega)]
  have hdl : ((pt.take 12).drop 1).length = 11 := by
    simp [Nat.min_eq_left (show 12 ≤ pt.length by omega)]
  simp only
  rw [copy_make_of_length 11 _ hdl, hnpa]
  simp only
  rw [slice_of_le pt 12 20 (by norm_num) hlen]

/-- When DecryptNote returns a note: the key agreement, the key derivation and
the AEAD succeeded, the recipient was derived from bytes 1..12 of the plaintext,
and the version switch returned the note. -/
theorem DecryptNote_success_inv (E : Env) (ivk : E.jj.Scalar) (epk : E.jj.Point)
    (cmu : E.jj.FieldElement) (ct : List Byte) (note : Note E.jj)
    (hs : DecryptNote E ivk epk cmu ct = .ret (some note, none)) :
    ∃ p key pt recipient,
      E.jj.ScalarMult ivk epk = .ok p ∧
      saplingKDF E (E.jj.MulByCofactor p) epk = .ret key ∧
      E.aead.New key = none ∧
      E.aead.Open key (make 12) ct [] = .ok pt ∧
      20 ≤ pt.length ∧
      NewPaymentAddress E ((pt.take 12).drop 1) ivk = .ret (some recipient, none) ∧
      DecryptNote.versionSwitch E epk
        { version := pt.getD 0 0, recipient := some recipient,
          value := Uint64 ((pt.take 20).drop 12) } recipient.g_d pt = .ret (some note, none) := by
  unfold DecryptNote at hs
  cases hka : E.jj.ScalarMult ivk epk with
  | error e => simp [saplingKeyAgreement, hka] at hs
  | ok p =>
    simp only [saplingKeyAgreement, hka] at hs
    cases hkdf : saplingKDF E (E.jj.MulByCofactor p) epk with
    | panic q => simp [hkdf] at hs
    | ret key =>
      simp only [hkdf] at hs
      cases hnew : E.aead.New key with
      | some e => simp [hnew] at hs
      | none =>
        simp only [hnew] at hs
        cases hopen : E.aead.Open key (make 12) ct [] with
        | error e => simp [hopen] at hs
        | ok pt =>
          simp only [hopen] at hs
          cases hidx : index pt 0 with
          | none => simp [hidx] at hs
          | some version =>
            simp only [hidx] at hs
            cases hsl1 : slice pt 1 12 with
            | none => simp [hsl1] at hs
            | some src =>
              simp only [hsl1] at hs
              obtain ⟨_, h12, rfl, hsrclen⟩ := slice_eq_some hsl1
              rw [copy_make_of_length 11 _ hsrclen] at hs
              cases hnpa : NewPaymentAddress E (List.drop 1 (List.take 12 pt)) ivk with
              | panic q => rw [hnpa] at hs; simp at hs
              | ret r =>
                obtain ⟨ro, re⟩ := r
                cases re with
                | some e => rw [hnpa] at hs; simp at hs
                | none =>
                  cases ro with
                  | none => rw [hnpa] at hs; simp at hs
                  | some recipient =>
                    rw [hnpa] at hs
                    simp only at hs
                    cases hsl2 : slice pt 12 20 with
                    | none => simp [hsl2] at hs
                    | some v =>
                      simp only [hsl2] at hs
                      obtain ⟨_, h20, rfl, _⟩ := slice_eq_some hsl2
                      have hver : version = pt.getD 0 0 := by
                        unfold index at hidx
                        split at hidx
                        · cases hidx; rfl
                        · cases hidx
                      subst hver
                      exact ⟨p, key, pt, recipient, rfl, hkdf, hnew, hopen, h20, hnpa, hs⟩

/-- C1 (the code diverges from the claim): whenever DecryptNote returns a
note, the memo has 512 bytes, but only its first 460 bytes are plaintext bytes
52..512; its last 52 bytes are zero, whatever plaintext bytes 512..564 are. -/
theorem DecryptNote_memo_last_52_bytes_zero (E : Env) (ivk : E.jj.Scalar) (epk : E.jj.Point)
    (cmu : E.jj.FieldElement) (ct : List Byte) (note : Note E.jj)
    (hs : DecryptNote E ivk epk cmu ct = .ret (some note, none)) :
    ∃ p key pt,
      E.jj.ScalarMult ivk epk = .ok p ∧
      saplingKDF E (E.jj.MulByCofactor p) epk = .ret key ∧
      E.aead.Open key (make 12) ct [] = .ok pt ∧
      512 ≤ pt.length ∧
      note.memo.length = 512 ∧
      note.memo = (pt.take 512).drop 52 ++ List.replicate 52 0 := by
  obtain ⟨p, key, pt, recipient, hka, hkdf, _, hopen, _, _, hvs⟩ :=
    DecryptNote_success_inv E ivk epk cmu ct note hs
  obtain ⟨hlen, hcase⟩ := DecryptNote.versionSwitch_inv E epk _ note _ pt hvs
  have hmemo : note.memo = (pt.take 512).drop 52 ++ List.replicate 52 0 := by
    rcases hcase with ⟨_, _, hn⟩ | ⟨_, _, _, _, _, _, _, _, _, _, hn⟩ <;> rw [hn]
  refine ⟨p, key, pt, hka, hkdf, hopen, hlen, ?_, hmemo⟩
  rw [hmemo]
  simp [Nat.min_eq_left hlen]

set_option maxRecDepth 1000000 in
/-- C1, at a concrete input: in the small instance the ciphertext of 580 bytes
of a version-0x01 plaintext whose memo ends in the byte 9 is decrypted to a
note whose memo ends in the byte 0. -/
theorem DecryptNote_memo_last_52_bytes_zero_witness :
    ∃ note : Note toyJubjub,
      DecryptNote toyEnv (3 : Nat) (8 : Nat) (0 : Nat) toyCiphertextV1 = .ret (some note, none) ∧
      toyCiphertextV1.length = 580 ∧
      toyEnv.aead.Open (63 :: List.replicate 31 0) (make 12) toyCiphertextV1 [] =
        .ok toyPlaintextV1 ∧
      (toyPlaintextV1.take 564).drop 52 = toyMemo ∧
      note.memo ≠ toyMemo ∧
      ∃ p key pt,
        toyJubjub.ScalarMult (3 : Nat) (8 : Nat) = .ok p ∧
        saplingKDF toyEnv (toyJubjub.MulByCofactor p) (8 : Nat) = .ret key ∧
        toyEnv.aead.Open key (make 12) toyCiphertextV1 [] = .ok pt ∧
        512 ≤ pt.length ∧
        note.memo.length = 512 ∧
        note.memo = (pt.take 512).drop 52 ++ List.replicate 52 0 :=
  ⟨_, rfl, by decide, by rfl, by decide, by decide,
    DecryptNote_memo_last_52_bytes_zero toyEnv (3 : Nat) (8 : Nat) (0 : Nat) toyCiphertextV1 _ rfl⟩

/-- C7 (the code diverges from the claim): when `ScalarMult(ivk, epk)` reports
an error (the supplied `epk` is off-curve), DecryptNote does not return an
error: `saplingKeyAgreement` panics. -/
theorem DecryptNote_off_curve_epk_panics (E : Env) (ivk : E.jj.Scalar) (epk : E.jj.Point)
    (cmu : E.jj.FieldElement) (ct : List Byte) (e : LibError)
    (hoff : E.jj.ScalarMult ivk epk = .error e) :
    DecryptNote E ivk epk cmu ct = .panic .offCurveKeyAgreement := by
  unfold DecryptNote
  simp only [saplingKeyAgreement, hoff]

/-- C7, at a concrete input: in the small instance the number 200 is an
off-curve point, and DecryptNote with it as `epk` panics. -/
theorem DecryptNote_off_curve_epk_panics_witness :
    toyJubjub.ScalarMult (3 : Nat) (200 : Nat) = .error (.other 2) ∧
      DecryptNote toyEnv (3 : Nat) (200 : Nat) (0 : Nat) toyCiphertextV1 =
        .panic .offCurveKeyAgreement :=
  ⟨rfl, DecryptNote_off_curve_epk_panics toyEnv (3 : Nat) (200 : Nat) (0 : Nat)
    toyCiphertextV1 (.other 2) rfl⟩

/-- C8 (the code diverges from the claim): when the ciphertext authenticates and
its plaintext has fewer than 12 bytes (the empty plaintext of a ciphertext of 16
bytes, say), DecryptNote does not return an error: indexing the plaintext
panics. -/
theorem DecryptNote_short_plaintext_panics (E : Env) (ivk : E.jj.Scalar) (epk : E.jj.Point)
    (cmu : E.jj.FieldElement) (ct : List Byte) (p : E.jj.Point) (key pt : List Byte)
    (hka : E.jj.ScalarMult ivk epk = .ok p)
    (hkdf : saplingKDF E (E.jj.MulByCofactor p) epk = .ret key)
    (hnew : E.aead.New key = none)
    (hopen : E.aead.Open key (make 12) ct [] = .ok pt)
    (hshort : pt.length < 12) :
    DecryptNote E ivk epk cmu ct = .panic .outOfRange := by
  unfold DecryptNote
  simp only [saplingKeyAgreement, hka, hkdf, hnew, hopen]
  cases hidx : index pt 0 with
  | none => rfl
  | some version =>
    simp only
    rw [slice_of_lt pt 1 12 hshort]

set_option maxRecDepth 1000000 in
/-- C8, at a concrete input: in the small instance the ciphertext of 16 bytes
that is the tag alone authenticates to the empty plaintext, and DecryptNote
panics. -/
theorem DecryptNote_short_plaintext_panics_witness :
    toyEnv.aead.Open (63 :: List.replicate 31 0) (make 12) (List.replicate 16 63) [] = .ok [] ∧
      DecryptNote toyEnv (3 : Nat) (8 : Nat) (0 : Nat) (List.replicate 16 63) =
        .panic .outOfRange :=
  ⟨by rfl, DecryptNote_short_plaintext_panics toyEnv (3 : Nat) (8 : Nat) (0 : Nat)
    (List.replicate 16 63) (24 : Nat) (63 :: List.replicate 31 0) [] (by rfl) (by rfl) (by rfl)
    (by rfl) (by decide)⟩

/-- The function `prfExpand` returns exactly when the digest can be made, and
then it returns the digest of 64 bytes requested for `seed ‖ purpose`. -/
theorem prfExpand_eq_ret (E : Env) (seed purpose b : List Byte) :
    prfExpand E seed purpose = .ret b ↔
      E.blake2b.NewDigest ZcashPRFExpandPersonality 64 = none ∧
        b = E.blake2b.Sum ZcashPRFExpandPersonality 64 (seed ++ purpose) := by
  unfold prfExpand
  cases h : E.blake2b.NewDigest ZcashPRFExpandPersonality 64 with
  | some e => simp
  | none =>
    simp only [Outcome.ret.injEq, true_and]
    exact eq_comm

/-- C9: for an on-curve `epk` and a ciphertext whose decrypted plaintext has 564
bytes and version byte 0x02, DecryptNote returns a note if and only if the AEAD
opens the ciphertext, the recipient is derived, and `esk • recipient.g_d`
equals the supplied `epk`, where `esk` is the scalar made from
`PRFExpand(plaintext[20:52], 0x05)`; when the recomputed key differs, DecryptNote
returns the epk-mismatch error. -/
theorem DecryptNote_v2_succeeds_iff (E : Env) (ivk : E.jj.Scalar) (epk : E.jj.Point)
    (cmu : E.jj.FieldElement) (ct : List Byte) (p : E.jj.Point) (key : List Byte)
    (hka : E.jj.ScalarMult ivk epk = .ok p)
    (hkdf : saplingKDF E (E.jj.MulByCofactor p) epk = .ret key)
    (hnew : E.aead.New key = none)
    (hpt : ∀ pt, E.aead.Open key (make 12) ct [] = .ok pt →
      pt.length = 564 ∧ pt.getD 0 0 = AfterZIP212) :
    ((∃ note, DecryptNote E ivk epk cmu ct = .ret (some note, none)) ↔
      ∃ pt recipient forEsk esk computedEPK,
        E.aead.Open key (make 12) ct [] = .ok pt ∧
        NewPaymentAddress E ((pt.take 12).drop 1) ivk = .ret (some recipient, none) ∧
        prfExpand E ((pt.take 52).drop 20) prfExpandEsk = .ret forEsk ∧
        (E.jj.ScalarFromBytes forEsk).1 = some esk ∧
        E.jj.ScalarMult esk recipient.g_d = .ok computedEPK ∧
        E.jj.Equals computedEPK epk = true) ∧
    (∀ pt recipient forEsk esk computedEPK,
        E.aead.Open key (make 12) ct [] = .ok pt →
        NewPaymentAddress E ((pt.take 12).drop 1) ivk = .ret (some recipient, none) →
        prfExpand E ((pt.take 52).drop 20) prfExpandEsk = .ret forEsk →
        (E.jj.ScalarFromBytes forEsk).1 = some esk →
        E.jj.ScalarMult esk recipient.g_d = .ok computedEPK →
        E.jj.Equals computedEPK epk = false →
        DecryptNote E ivk epk cmu ct = .ret (none, some .epkMismatch)) := by
  have key_step : ∀ pt recipient forEsk esk computedEPK,
      E.aead.Open key (make 12) ct [] = .ok pt →
      NewPaymentAddress E ((pt.take 12).drop 1) ivk = .ret (some recipient, none) →
      prfExpand E ((pt.take 52).drop 20) prfExpandEsk = .ret forEsk →
      (E.jj.ScalarFromBytes forEsk).1 = some esk →
      E.jj.ScalarMult esk recipient.g_d = .ok computedEPK →
      DecryptNote E ivk epk cmu ct =
        if E.jj.Equals computedEPK epk = true then
          .ret (some { version := pt.getD 0 0, recipient := some recipient,
                       value := Uint64 ((pt.take 20).drop 12),
                       rseed := (pt.take 52).drop 20,
                       rcm := (E.jj.ScalarFromBytes (E.blake2b.Sum ZcashPRFExpandPersonality 64
                         ((pt.take 52).drop 20 ++ prfExpandRcm))).1,
                       memo := (pt.take 512).drop 52 ++ List.replicate 52 0 }, none)
        else .ret (none, some .epkMismatch) := by
    intro pt recipient forEsk esk computedEPK hopen hnpa h2 h3 h4
    obtain ⟨hlen, hver⟩ := hpt pt hopen
    have h1 : prfExpand E ((pt.take 52).drop 20) prfExpandRcm =
        .ret (E.blake2b.Sum ZcashPRFExpandPersonality 64 ((pt.take 52).drop 20 ++ prfExpandRcm)) :=
      (prfExpand_eq_ret E _ _ _).2 ⟨((prfExpand_eq_ret E _ _ _).1 h2).1, rfl⟩
    rw [DecryptNote_eq_versionSwitch E ivk epk cmu ct p key pt recipient hka hkdf hnew hopen
      (by omega) hnpa]
    rw [DecryptNote.versionSwitch_v2 E epk _ recipient.g_d pt _ forEsk esk computedEPK hver
      (by omega) h1 h2 h3 h4]
  refine ⟨⟨?_, ?_⟩, ?_⟩
  · rintro ⟨note, hs⟩
    obtain ⟨p2, key2, pt, recipient, hka2, hkdf2, _, hopen, _, hnpa, hvs⟩ :=
      DecryptNote_success_inv E ivk epk cmu ct note hs
    rw [hka] at hka2
    cases hka2
    rw [hkdf] at hkdf2
    cases hkdf2
    obtain ⟨_, hver⟩ := hpt pt hopen
    obtain ⟨_, hcase⟩ := DecryptNote.versionSwitch_inv E epk _ note _ pt hvs
    rcases hcase with ⟨hv1, _⟩ | ⟨_, forRcm, forEsk, esk, computedEPK, _, h2, h3, h4, h5, _⟩
    · simp only [hver] at hv1
      exact absurd hv1 (by decide)
    · exact ⟨pt, recipient, forEsk, esk, computedEPK, hopen, hnpa, h2, h3, h4, h5⟩
  · rintro ⟨pt, recipient, forEsk, esk, computedEPK, hopen, hnpa, h2, h3, h4, h5⟩
    rw [key_step pt recipient forEsk esk computedEPK hopen hnpa h2 h3 h4, if_pos h5]
    exact ⟨_, rfl⟩
  · intro pt recipient forEsk esk computedEPK hopen hnpa h2 h3 h4 h5
    rw [key_step pt recipient forEsk esk computedEPK hopen hnpa h2 h3 h4, if_neg (by simp [h5])]

set_option maxRecDepth 1000000 in
/-- C9, at concrete inputs: in the small instance the version-0x02 ciphertext
made for the ephemeral key 16, which is `esk • g_d`, is decrypted to a note, and
the same plaintext encrypted for the ephemeral key 8 gives the epk-mismatch
error. -/
theorem DecryptNote_v2_succeeds_iff_witness :
    (∃ note, DecryptNote toyEnv (3 : Nat) (16 : Nat) (0 : Nat) toyCiphertextV2 =
        .ret (some note, none)) ∧
      DecryptNote toyEnv (3 : Nat) (8 : Nat) (0 : Nat) toyCiphertextV2Other =
        .ret (none, some .epkMismatch) :=
  ⟨(DecryptNote_v2_succeeds_iff toyEnv (3 : Nat) (16 : Nat) (0 : Nat) toyCiphertextV2
      (48 : Nat) (165 :: List.replicate 31 0) (by rfl) (by rfl) (by rfl)
      (fun pt h => by
        cases (show Except.ok toyPlaintextV2 = Except.ok pt from h)
        exact ⟨by decide, by decide⟩)).1.2
      ⟨toyPlaintextV2, { d := toyDiversifier, g_d := (72 : Nat), pk_d := (8 : Nat) },
        214 :: List.replicate 63 0, (6 : Nat), (16 : Nat),
        by rfl, by rfl, by rfl, by rfl, by rfl, by rfl⟩,
    (DecryptNote_v2_succeeds_iff toyEnv (3 : Nat) (8 : Nat) (0 : Nat) toyCiphertextV2Other
      (24 : Nat) (63 :: List.replicate 31 0) (by rfl) (by rfl) (by rfl)
      (fun pt h => by
        cases (show Except.ok toyPlaintextV2 = Except.ok pt from h)
        exact ⟨by decide, by decide⟩)).2
      toyPlaintextV2 { d := toyDiversifier, g_d := (72 : Nat), pk_d := (8 : Nat) }
      (214 :: List.replicate 63 0) (6 : Nat) (16 : Nat)
      (by rfl) (by rfl) (by rfl) (by rfl) (by rfl) (by rfl)⟩

set_option maxRecDepth 1000000 in
/-- C10, counterexample: with a `ScalarFromBytes` that returns a nil scalar for
the digest `PRFExpand(rseed, 0x04)` and a scalar for `PRFExpand(rseed, 0x05)`,
DecryptNote returns a version-0x02 note whose `rcm` is absent: the error of
`ScalarFromBytes` is discarded and nothing checks the scalar. -/
theorem DecryptNote_v2_rcm_can_be_absent :
    ∃ note : Note refusingJubjub,
      DecryptNote refusingEnv (3 : Nat) (16 : Nat) (0 : Nat) toyCiphertextV2 =
        .ret (some note, none) ∧
      note.version = AfterZIP212 ∧
      note.rseed = 7 :: List.replicate 31 0 ∧
      refusingJubjub.ScalarFromBytes
        (refusingEnv.blake2b.Sum ZcashPRFExpandPersonality 64 (note.rseed ++ [0x04])) =
          (none, some (.other 8)) ∧
      note.rcm = none :=
  ⟨_, rfl, by decide, by decide, by decide, by decide⟩

/-- C10, amended: whenever DecryptNote returns a note, then for a version-0x02
plaintext `rseed` is the 32 bytes `plaintext[20:52]` and `rcm` is the scalar
pointer that the library's `ScalarFromBytes` returns for the digest of 64 bytes
`PRFExpand(rseed, 0x04)`, its error discarded, so `rcm` is absent exactly when
the library returns no scalar; for a version-0x01 plaintext `rseed` is nil and
`rcm` is the scalar that `ScalarFromBytes` returns for `plaintext[20:52]`. -/
theorem DecryptNote_rseed_and_rcm (E : Env) (ivk : E.jj.Scalar) (epk : E.jj.Point)
    (cmu : E.jj.FieldElement) (ct : List Byte) (note : Note E.jj)
    (hs : DecryptNote E ivk epk cmu ct = .ret (some note, none)) :
    ∃ p key pt,
      E.jj.ScalarMult ivk epk = .ok p ∧
      saplingKDF E (E.jj.MulByCofactor p) epk = .ret key ∧
      E.aead.Open key (make 12) ct [] = .ok pt ∧
      (pt.getD 0 0 = AfterZIP212 →
        note.rseed = (pt.take 52).drop 20 ∧ note.rseed.length = 32 ∧
        prfExpand E note.rseed prfExpandRcm =
          .ret (E.blake2b.Sum ZcashPRFExpandPersonality 64 (note.rseed ++ [0x04])) ∧
        note.rcm = (E.jj.ScalarFromBytes
          (E.blake2b.Sum ZcashPRFExpandPersonality 64 (note.rseed ++ [0x04]))).1 ∧
        (note.rcm = none ↔ (E.jj.ScalarFromBytes
          (E.blake2b.Sum ZcashPRFExpandPersonality 64 (note.rseed ++ [0x04]))).1 = none)) ∧
      (pt.getD 0 0 = BeforeZIP212 →
        note.rseed = [] ∧
        note.rcm = (E.jj.ScalarFromBytes ((pt.take 52).drop 20)).1) := by
  obtain ⟨p, key, pt, recipient, hka, hkdf, _, hopen, _, _, hvs⟩ :=
    DecryptNote_success_inv E ivk epk cmu ct note hs
  obtain ⟨hlen, hcase⟩ := DecryptNote.versionSwitch_inv E epk _ note _ pt hvs
  refine ⟨p, key, pt, hka, hkdf, hopen, ?_, ?_⟩
  · intro hver
    rcases hcase with ⟨hv1, _⟩ | ⟨_, forRcm, _, _, _, h1, _, _, _, _, hn⟩
    · simp only [hver] at hv1
      exact absurd hv1 (by decide)
    · obtain ⟨hnd, hb⟩ := (prfExpand_eq_ret E _ _ _).1 h1
      have hrseed : note.rseed = (pt.take 52).drop 20 := by rw [hn]
      have hrcm : note.rcm = (E.jj.ScalarFromBytes forRcm).1 := by rw [hn]
      have hrcm2 : note.rcm = (E.jj.ScalarFromBytes
          (E.blake2b.Sum ZcashPRFExpandPersonality 64 (note.rseed ++ [0x04]))).1 := by
        rw [hrcm, hrseed, hb]
        rfl
      refine ⟨hrseed, ?_, ?_, hrcm2, ?_⟩
      · rw [hrseed]
        simp [Nat.min_eq_left (show 52 ≤ pt.length by omega)]
      · rw [hrseed]
        exact (prfExpand_eq_ret E _ _ _).2 ⟨hnd, rfl⟩
      · rw [← hrcm2]
  · intro hver
    rcases hcase with ⟨_, _, hn⟩ | ⟨hv2, _⟩
    · exact ⟨by rw [hn], by rw [hn]⟩
    · simp only [hver] at hv2
      exact absurd hv2 (by decide)

set_option maxRecDepth 1000000 in
/-- C10, at a concrete input: in the small instance the version-0x02 ciphertext
is decrypted to a note with the seed `7, 0, ..., 0` and the scalar 5, which is
what `ScalarFromBytes` returns for the digest of the seed. -/
theorem DecryptNote_rseed_and_rcm_witness :
    ∃ note : Note toyJubjub,
      DecryptNote toyEnv (3 : Nat) (16 : Nat) (0 : Nat) toyCiphertextV2 =
        .ret (some note, none) ∧
      note.rseed = 7 :: List.replicate 31 0 ∧ note.rcm = some (5 : Nat) ∧
      ∃ p key pt,
        toyJubjub.ScalarMult (3 : Nat) (16 : Nat) = .ok p ∧
        saplingKDF toyEnv (toyJubjub.MulByCofactor p) (16 : Nat) = .ret key ∧
        toyEnv.aead.Open key (make 12) toyCiphertextV2 [] = .ok pt ∧
        (pt.getD 0 0 = AfterZIP212 →
          note.rseed = (pt.take 52).drop 20 ∧ note.rseed.length = 32 ∧
          prfExpand toyEnv note.rseed prfExpandRcm =
            .ret (toyEnv.blake2b.Sum ZcashPRFExpandPersonality 64 (note.rseed ++ [0x04])) ∧
          note.rcm = (toyJubjub.ScalarFromBytes
            (toyEnv.blake2b.Sum ZcashPRFExpandPersonality 64 (note.rseed ++ [0x04]))).1 ∧
          (note.rcm = none ↔ (toyJubjub.ScalarFromBytes
            (toyEnv.blake2b.Sum ZcashPRFExpandPersonality 64 (note.rseed ++ [0x04]))).1 =
              none)) ∧
        (pt.getD 0 0 = BeforeZIP212 →
          note.rseed = [] ∧
          note.rcm = (toyJubjub.ScalarFromBytes ((pt.take 52).drop 20)).1) :=
  ⟨_, rfl, by decide, by decide,
    DecryptNote_rseed_and_rcm toyEnv (3 : Nat) (16 : Nat) (0 : Nat) toyCiphertextV2 _ rfl⟩

/-! ## Theorems: output descriptions -/

/-- On an input of 948 bytes the output-description decoder reports no error
and fills the six fields with consecutive parts of the input. -/
theorem OutputDescription.UnmarshalBinary_splits_948 (od : OutputDescription)
    (data : List Byte) (h : data.length = 948) :
    od.UnmarshalBinary data =
      ({ cv := data.take 32, cmu := (data.drop 32).take 32, epk := (data.drop 64).take 32,
         encCiphertext := (data.drop 96).take 580, outCiphertext := (data.drop 676).take 80,
         zkp := (data.drop 756).take 192 }, none) := by
  simp [OutputDescription.UnmarshalBinary, OutputDescriptionLength, bytecrypto.ReadBytes,
    bytecrypto.Empty, h]

/-- On an input of any other length the output-description decoder reports the
wrong-size error and leaves the receiver as it was. -/
theorem OutputDescription.UnmarshalBinary_splits_not_948 (od : OutputDescription)
    (data : List Byte) (h : data.length ≠ 948) :
    od.UnmarshalBinary data = (od, some .odWrongSize) := by
  simp [OutputDescription.UnmarshalBinary, OutputDescriptionLength, h]

/-- A list is its first `n` elements followed by the next `m` elements and the
rest: the step that glues consecutive parts together. -/
theorem take_append_drop_take (l : List Byte) (n m : Nat) :
    l.take n ++ (l.drop n).take m = l.take (n + m) := by
  rw [List.take_add]

/-- C11: `OutputDescription.UnmarshalBinary` succeeds exactly on inputs of 948
bytes.  On such an input it returns no error and sets `cv`, `cmu`, `epk`,
`encCiphertext`, `outCiphertext`, `zkp` to consecutive parts of 32, 32, 32, 580,
80 and 192 bytes whose concatenation is the input; six fields of these lengths
are recovered from their concatenation; on any other length it returns an
error; and the only errors it ever returns are none and the wrong-size error. -/
theorem OutputDescription_UnmarshalBinary_exactly_948 (od : OutputDescription)
    (data : List Byte) :
    (data.length = 948 →
      (od.UnmarshalBinary data).2 = none ∧
      (od.UnmarshalBinary data).1 =
        { cv := data.take 32, cmu := (data.drop 32).take 32, epk := (data.drop 64).take 32,
          encCiphertext := (data.drop 96).take 580, outCiphertext := (data.drop 676).take 80,
          zkp := (data.drop 756).take 192 } ∧
      (od.UnmarshalBinary data).1.cv.length = 32 ∧
      (od.UnmarshalBinary data).1.cmu.length = 32 ∧
      (od.UnmarshalBinary data).1.epk.length = 32 ∧
      (od.UnmarshalBinary data).1.encCiphertext.length = 580 ∧
      (od.UnmarshalBinary data).1.outCiphertext.length = 80 ∧
      (od.UnmarshalBinary data).1.zkp.length = 192 ∧
      specEncodeOutputDescription (od.UnmarshalBinary data).1 = data) ∧
    (∀ fields : OutputDescription,
      fields.cv.length = 32 → fields.cmu.length = 32 → fields.epk.length = 32 →
      fields.encCiphertext.length = 580 → fields.outCiphertext.length = 80 →
      fields.zkp.length = 192 →
      od.UnmarshalBinary (specEncodeOutputDescription fields) = (fields, none)) ∧
    (data.length ≠ 948 → (od.UnmarshalBinary data).2 = some .odWrongSize) ∧
    ((od.UnmarshalBinary data).2 = none ∨ (od.UnmarshalBinary data).2 = some .odWrongSize) := by
  refine ⟨?_, ?_, ?_, ?_⟩
  · intro h
    rw [OutputDescription.UnmarshalBinary_splits_948 od data h]
    refine ⟨rfl, rfl, ?_, ?_, ?_, ?_, ?_, ?_, ?_⟩
    · simp [h]
    · simp [h]
    · simp [h]
    · simp [h]
    · simp [h]
    · simp [h]
    · simp only [specEncodeOutputDescription]
      rw [take_append_drop_take, take_append_drop_take, take_append_drop_take,
        take_append_drop_take, take_append_drop_take]
      exact List.take_of_length_le (by omega)
  · intro fields h1 h2 h3 h4 h5 h6
    rw [OutputDescription.UnmarshalBinary_splits_948 od _
      (by simp [specEncodeOutputDescription, h1, h2, h3, h4, h5, h6])]
    obtain ⟨cv, cmu, epk, enc, out, zkp⟩ := fields
    simp only at h1 h2 h3 h4 h5 h6
    simp [specEncodeOutputDescription, h1, h2, h3, h4, h5, h6, List.take_append_eq_append_take,
      List.drop_append_eq_append_drop, List.drop_of_length_le, List.take_of_length_le]
  · intro h
    rw [OutputDescription.UnmarshalBinary_splits_not_948 od data h]
  · by_cases h : data.length = 948
    · exact Or.inl (by rw [OutputDescription.UnmarshalBinary_splits_948 od data h])
    · exact Or.inr (by rw [OutputDescription.UnmarshalBinary_splits_not_948 od data h])

/-- C11, at concrete inputs: an input of 948 bytes is split without error into
fields whose concatenation is the input, and an input of 947 bytes is refused. -/
theorem OutputDescription_UnmarshalBinary_exactly_948_witness :
    toyOutputDescription.length = 948 ∧
      (({} : OutputDescription).UnmarshalBinary toyOutputDescription).2 = none ∧
      specEncodeOutputDescription
        (({} : OutputDescription).UnmarshalBinary toyOutputDescription).1 =
          toyOutputDescription ∧
      (({} : OutputDescription).UnmarshalBinary (List.replicate 947 0)).2 =
        some .odWrongSize :=
  ⟨by rw [toyOutputDescription, List.length_map, List.length_range],
    ((OutputDescription_UnmarshalBinary_exactly_948 {} toyOutputDescription).1
      (by rw [toyOutputDescription, List.length_map, List.length_range])).1,
    ((OutputDescription_UnmarshalBinary_exactly_948 {} toyOutputDescription).1
      (by rw [toyOutputDescription, List.length_map, List.length_range])).2.2.2.2.2.2.2.2,
    (OutputDescription_UnmarshalBinary_exactly_948 {} (List.replicate 947 0)).2.2.1
      (by rw [List.length_replicate]; decide)⟩

/-! ## Theorems: the extended viewing key -/

/-- A bitwise `or` of a multiple of `2 ^ k` with a number below `2 ^ k` is their sum. -/
theorem or_eq_add_of_dvd (x y k : Nat) (hx : 2 ^ k ∣ x) (hy : y < 2 ^ k) : x ||| y = x + y := by
  obtain ⟨a, rfl⟩ := hx
  exact (Nat.mul_add_lt_is_or hy a).symm

/-- A bitwise `or` of a number below `2 ^ k` with a number shifted left by `k`
is their sum. -/
theorem or_shiftLeft_eq_add (x b k : Nat) (h : x < 2 ^ k) : x ||| (b <<< k) = x + b * 2 ^ k := by
  rw [Nat.lor_comm, Nat.shiftLeft_eq, or_eq_add_of_dvd (b * 2 ^ k) x k (Dvd.intro_left _ rfl) h,
    Nat.add_comm]

/-- The integer that the big-endian order makes of four bytes. -/
theorem bigEndian_value (b0 b1 b2 b3 : Nat) (h1 : b1 < 256) (h2 : b2 < 256) (h3 : b3 < 256) :
    (b0 <<< 24) ||| (b1 <<< 16) ||| (b2 <<< 8) ||| b3 =
      b0 * 2 ^ 24 + b1 * 2 ^ 16 + b2 * 2 ^ 8 + b3 := by
  simp only [Nat.shiftLeft_eq]
  rw [or_eq_add_of_dvd (b0 * 2 ^ 24) (b1 * 2 ^ 16) 24 (Dvd.intro_left _ rfl) (by omega)]
  rw [or_eq_add_of_dvd (b0 * 2 ^ 24 + b1 * 2 ^ 16) (b2 * 2 ^ 8) 16 (by omega) (by omega)]
  rw [or_eq_add_of_dvd (b0 * 2 ^ 24 + b1 * 2 ^ 16 + b2 * 2 ^ 8) b3 8 (by omega) (by omega)]

/-- The big-endian order reads back an integer below `2 ^ 32` from the four
bytes written most significant byte first. -/
theorem bigEndian_specPutUint32 (n : Nat) (h : n < 2 ^ 32) :
    (specPutUint32 n).length = 4 ∧ bigEndian.uint32 (specPutUint32 n) = n := by
  refine ⟨rfl, ?_⟩
  show (n / 2 ^ 24 % 256) <<< 24 ||| (n / 2 ^ 16 % 256) <<< 16 |||
      (n / 2 ^ 8 % 256) <<< 8 ||| n % 256 = n
  rw [bigEndian_value _ _ _ _ (Nat.mod_lt _ (by norm_num)) (Nat.mod_lt _ (by norm_num))
    (Nat.mod_lt _ (by norm_num))]
  omega

/-- The little-endian order reads back an integer below `2 ^ 32` from the four
bytes written least significant byte first. -/
theorem littleEndian_specPutUint32LE (n : Nat) (h : n < 2 ^ 32) :
    (specPutUint32LE n).length = 4 ∧ littleEndian.uint32 (specPutUint32LE n) = n := by
  refine ⟨rfl, ?_⟩
  show n % 256 ||| (n / 2 ^ 8 % 256) <<< 8 ||| (n / 2 ^ 16 % 256) <<< 16 |||
      (n / 2 ^ 24 % 256) <<< 24 = n
  rw [or_shiftLeft_eq_add _ _ 8 (by omega), or_shiftLeft_eq_add _ _ 16 (by omega),
    or_shiftLeft_eq_add _ _ 24 (by omega)]
  omega

/-- Reading the four bytes of an integer that the byte order reads back gives
the integer and leaves the rest. -/
theorem readUint32_put (B : ByteOrder) (put : Nat → List Byte) (n : Nat) (rest : List Byte)
    (hput : (put n).length = 4 ∧ B.uint32 (put n) = n) :
    bytecrypto.ReadUint32 B (put n ++ rest) = some (n, rest) := by
  simp only [bytecrypto.ReadUint32, bytecrypto.ReadBytes, List.length_append, hput.1]
  rw [if_neg (by omega)]
  simp only
  rw [List.take_left' hput.1, List.drop_left' hput.1, hput.2]

/-- Reading one byte from a string that starts with it. -/
theorem readUint8_cons (b : Byte) (rest : List Byte) :
    bytecrypto.ReadUint8 (b :: rest) = some (b, rest) := by
  simp [bytecrypto.ReadUint8, bytecrypto.ReadBytes]

/-- Reading `n` bytes from a string that starts with a field of `n` bytes gives
the field and leaves the rest. -/
theorem readBytes_append (x rest : List Byte) (n : Nat) (h : x.length = n) :
    bytecrypto.ReadBytes (x ++ rest) n = some (x, rest) := by
  subst h
  simp [bytecrypto.ReadBytes]

/-- On an input whose length is not 169 the EFVK decoder reports the wrong-size
error and leaves the receiver as it was. -/
theorem saplingExtendedFullViewingKey.UnmarshalBinary_of_length_ne
    (evk : saplingExtendedFullViewingKey) (B : ByteOrder) (data : List Byte)
    (h : data.length ≠ 169) :
    evk.UnmarshalBinary B data = (evk, some .efvkWrongSize) := by
  simp [saplingExtendedFullViewingKey.UnmarshalBinary, SaplingExtendedFullViewingKeyLength, h]

/-- C12: the round trip of the extended viewing-key layout, for either byte
order of the reader.  When `put` writes the four bytes that the reader reads
back, then for every depth, every `parentFVKTag` and `childIndex` below `2 ^ 32`
and every `chaincode`, `ak`, `nk`, `ovk`, `dk` of 32 bytes, the encoding has 169
bytes and `UnmarshalBinary` of it returns no error and exactly these fields; on
an input whose length is not 169 it returns an error. -/
theorem saplingExtendedFullViewingKey_round_trip (evk : saplingExtendedFullViewingKey)
    (B : ByteOrder) (put : Nat → List Byte)
    (depth parentFVKTag childIndex : Nat) (chaincode ak nk ovk dk : List Byte)
    (hput : ∀ n, n < 2 ^ 32 → (put n).length = 4 ∧ B.uint32 (put n) = n)
    (htag : parentFVKTag < 2 ^ 32) (hidx : childIndex < 2 ^ 32)
    (hcc : chaincode.length = 32) (hak : ak.length = 32) (hnk : nk.length = 32)
    (hovk : ovk.length = 32) (hdk : dk.length = 32) :
    (specEncodeEFVK put depth parentFVKTag childIndex chaincode ak nk ovk dk).length = 169 ∧
    evk.UnmarshalBinary B
        (specEncodeEFVK put depth parentFVKTag childIndex chaincode ak nk ovk dk) =
      ({ depth := depth, parentFVKTag := parentFVKTag, childIndex := childIndex,
         chaincode := chaincode, vk := { ak := ak, nk := nk, ovk := ovk }, dk := dk }, none) ∧
    ∀ data : List Byte, data.length ≠ 169 →
      (evk.UnmarshalBinary B data).2 = some .efvkWrongSize := by
  have hlen : (specEncodeEFVK put depth parentFVKTag childIndex chaincode ak nk ovk dk).length =
      169 := by
    simp [specEncodeEFVK, (hput _ htag).1, (hput _ hidx).1, hcc, hak, hnk, hovk, hdk]
  refine ⟨hlen, ?_, ?_⟩
  · unfold saplingExtendedFullViewingKey.UnmarshalBinary
    rw [if_neg (by rw [hlen]; decide)]
    simp only [specEncodeEFVK, List.append_assoc, List.singleton_append, List.cons_append]
    rw [readUint8_cons]
    simp only [List.nil_append]
    rw [readUint32_put B put parentFVKTag _ (hput _ htag)]
    simp only
    rw [readUint32_put B put childIndex _ (hput _ hidx)]
    simp only
    rw [readBytes_append chaincode _ 32 hcc]
    simp only
    rw [readBytes_append ak _ 32 hak]
    simp only
    rw [readBytes_append nk _ 32 hnk]
    simp only
    rw [readBytes_append ovk _ 32 hovk]
    simp only
    have hdk2 : bytecrypto.ReadBytes dk 32 = some (dk, []) := by
      have := readBytes_append dk [] 32 hdk
      rwa [List.append_nil] at this
    rw [hdk2]
    simp [bytecrypto.Empty]
  · intro data h
    rw [saplingExtendedFullViewingKey.UnmarshalBinary_of_length_ne evk B data h]

/-- C12, at concrete inputs: the layout of depth 3, tag `0x01020304`, child
index `2 ^ 31 + 5` and five fields of 32 equal bytes is decoded to these fields,
with the most significant byte first as well as with the least significant byte
first, and an input of 168 bytes is refused. -/
theorem saplingExtendedFullViewingKey_round_trip_witness :
    (({} : saplingExtendedFullViewingKey).UnmarshalBinary bigEndian
      (specEncodeEFVK specPutUint32 3 0x01020304 (2 ^ 31 + 5) (List.replicate 32 1)
        (List.replicate 32 2) (List.replicate 32 3) (List.replicate 32 4)
        (List.replicate 32 5)) =
      ({ depth := 3, parentFVKTag := 0x01020304, childIndex := 2 ^ 31 + 5,
         chaincode := List.replicate 32 1,
         vk := { ak := List.replicate 32 2, nk := List.replicate 32 3,
                 ovk := List.replicate 32 4 },
         dk := List.replicate 32 5 }, none)) ∧
    (({} : saplingExtendedFullViewingKey).UnmarshalBinary littleEndian
      (specEncodeEFVK specPutUint32LE 3 0x01020304 (2 ^ 31 + 5) (List.replicate 32 1)
        (List.replicate 32 2) (List.replicate 32 3) (List.replicate 32 4)
        (List.replicate 32 5)) =
      ({ depth := 3, parentFVKTag := 0x01020304, childIndex := 2 ^ 31 + 5,
         chaincode := List.replicate 32 1,
         vk := { ak := List.replicate 32 2, nk := List.replicate 32 3,
                 ovk := List.replicate 32 4 },
         dk := List.replicate 32 5 }, none)) ∧
    (({} : saplingExtendedFullViewingKey).UnmarshalBinary bigEndian
      (List.replicate 168 0)).2 = some .efvkWrongSize :=
  ⟨(saplingExtendedFullViewingKey_round_trip {} bigEndian specPutUint32 3 0x01020304
      (2 ^ 31 + 5) (List.replicate 32 1) (List.replicate 32 2) (List.replicate 32 3)
      (List.replicate 32 4) (List.replicate 32 5) bigEndian_specPutUint32
      (by norm_num) (by norm_num) (List.length_replicate _ _)
      (List.length_replicate _ _) (List.length_replicate _ _) (List.length_replicate _ _)
      (List.length_replicate _ _)).2.1,
    (saplingExtendedFullViewingKey_round_trip {} littleEndian specPutUint32LE 3 0x01020304
      (2 ^ 31 + 5) (List.replicate 32 1) (List.replicate 32 2) (List.replicate 32 3)
      (List.replicate 32 4) (List.replicate 32 5) littleEndian_specPutUint32LE
      (by norm_num) (by norm_num) (List.length_replicate _ _)
      (List.length_replicate _ _) (List.length_replicate _ _) (List.length_replicate _ _)
      (List.length_replicate _ _)).2.1,
    (saplingExtendedFullViewingKey_round_trip {} bigEndian specPutUint32 3 0x01020304
      (2 ^ 31 + 5) (List.replicate 32 1) (List.replicate 32 2) (List.replicate 32 3)
      (List.replicate 32 4) (List.replicate 32 5) bigEndian_specPutUint32
      (by norm_num) (by norm_num) (List.length_replicate _ _)
      (List.length_replicate _ _) (List.length_replicate _ _) (List.length_replicate _ _)
      (List.length_replicate _ _)).2.2 (List.replicate 168 0)
      (by rw [List.length_replicate]; decide)⟩

/-! ## Theorems: the incoming viewing key -/

/-- C13: when the digest can be made and has 32 bytes, `deriveIVK(ak, nk)`
returns the BLAKE2s digest of 32 bytes personalised with `Zcashivk` of
`ak ‖ nk` with its last byte ANDed with `0x07`: the result has 32 bytes, its
first 31 bytes are those of the digest, and the top five bits of its byte 31 are
zero. -/
theorem deriveIVK_is_masked_digest (E : Env) (ak nk : List Byte)
    (hnd : E.blake2s.NewDigest ZcashIVKPersonality 32 = none)
    (hlen : (E.blake2s.Sum ZcashIVKPersonality 32 (ak ++ nk)).length = 32) :
    ∃ ivk, deriveIVK E ak nk = .ret ivk ∧
      ivk = (E.blake2s.Sum ZcashIVKPersonality 32 (ak ++ nk)).set 31
        ((E.blake2s.Sum ZcashIVKPersonality 32 (ak ++ nk)).getD 31 0 &&& 0x07) ∧
      ivk.length = 32 ∧
      ivk.take 31 = (E.blake2s.Sum ZcashIVKPersonality 32 (ak ++ nk)).take 31 ∧
      ivk.getD 31 0 = (E.blake2s.Sum ZcashIVKPersonality 32 (ak ++ nk)).getD 31 0 &&& 0x07 ∧
      ivk.getD 31 0 < 8 ∧
      ivk.getD 31 0 &&& 0xF8 = 0 := by
  have hidx : index (E.blake2s.Sum ZcashIVKPersonality 32 (ak ++ nk)) 31 =
      some ((E.blake2s.Sum ZcashIVKPersonality 32 (ak ++ nk)).getD 31 0) := by
    unfold index
    rw [if_pos (by omega)]
  have hget : ((E.blake2s.Sum ZcashIVKPersonality 32 (ak ++ nk)).set 31
      ((E.blake2s.Sum ZcashIVKPersonality 32 (ak ++ nk)).getD 31 0 &&& 0x07)).getD 31 0 =
      (E.blake2s.Sum ZcashIVKPersonality 32 (ak ++ nk)).getD 31 0 &&& 0x07 := by
    simp [List.getD_eq_getElem?_getD, List.getElem?_set, hlen]
  refine ⟨_, ?_, rfl, ?_, ?_, hget, ?_, ?_⟩
  · unfold deriveIVK
    rw [hnd]
    simp only
    rw [hidx]
  · simp [hlen]
  · rw [List.set_take, List.set_eq_of_length_le (by simp [hlen])]
  · rw [hget]
    exact Nat.and_lt_two_pow _ (by norm_num : 7 < 2 ^ 3)
  · rw [hget, Nat.and_assoc]
    have h0 : (0x07 : Nat) &&& 0xF8 = 0 := by decide
    rw [h0, Nat.and_zero]

/-- C13, at a concrete input: with the all-255 digest `deriveIVK` returns 31
bytes 255 followed by the byte 7. -/
theorem deriveIVK_is_masked_digest_witness :
    deriveIVK fullDigestEnv [1, 2] [3] = .ret (List.replicate 31 255 ++ [7]) ∧
      ∃ ivk, deriveIVK fullDigestEnv [1, 2] [3] = .ret ivk ∧
        ivk = (fullDigestEnv.blake2s.Sum ZcashIVKPersonality 32 ([1, 2] ++ [3])).set 31
          ((fullDigestEnv.blake2s.Sum ZcashIVKPersonality 32 ([1, 2] ++ [3])).getD 31 0 &&&
            0x07) ∧
        ivk.length = 32 ∧
        ivk.take 31 = (fullDigestEnv.blake2s.Sum ZcashIVKPersonality 32 ([1, 2] ++ [3])).take 31 ∧
        ivk.getD 31 0 =
          (fullDigestEnv.blake2s.Sum ZcashIVKPersonality 32 ([1, 2] ++ [3])).getD 31 0 &&&
            0x07 ∧
        ivk.getD 31 0 < 8 ∧
        ivk.getD 31 0 &&& 0xF8 = 0 :=
  ⟨by decide, deriveIVK_is_masked_digest fullDigestEnv [1, 2] [3] rfl (by decide)⟩

/-! ## Theorems: payment addresses and notes, continued -/

/-- The two shapes of a result of `findBasepoint`: a point that is on-curve and
not the identity with a nil error, or no point and an error. -/
theorem findBasepoint_cases (E : Env) (d : List Byte) :
    (∃ g, findBasepoint E d = (some g, none) ∧ E.jj.IsOnCurve g = true ∧
        E.jj.IsIdentity g = false) ∨
    (∃ e, findBasepoint E d = (none, some e)) := by
  rcases GroupHasher.Hash_cases (NewGroupHasher E ZcashDiversifyPersonality).1 d with
    ⟨q, _, _, _, _, h5, h6, h7⟩ | ⟨e, h1, _⟩
  · exact Or.inl ⟨_, h7, h5, h6⟩
  · exact Or.inr ⟨e, h1⟩

/-- The three ways `NewPaymentAddress` ends: the error of `findBasepoint` is
passed on; the error of `ScalarMult` is passed on; or the address is returned,
and its base point is on-curve and not the identity.  It never panics. -/
theorem NewPaymentAddress_cases (E : Env) (d : List Byte) (ivk : E.jj.Scalar) :
    (∃ e, findBasepoint E d = (none, some e) ∧
        NewPaymentAddress E d ivk = .ret (none, some e)) ∨
    (∃ g e, findBasepoint E d = (some g, none) ∧ E.jj.ScalarMult ivk g = .error e ∧
        NewPaymentAddress E d ivk = .ret (none, some (.lib e))) ∨
    (∃ g pk, findBasepoint E d = (some g, none) ∧ E.jj.ScalarMult ivk g = .ok pk ∧
        E.jj.IsOnCurve g = true ∧ E.jj.IsIdentity g = false ∧
        NewPaymentAddress E d ivk = .ret (some { d := d, g_d := g, pk_d := pk }, none)) := by
  rcases (findBasepoint_cases E d) with ⟨g, hfb, hon, hid⟩ | ⟨e, hfb⟩
  · cases hsm : E.jj.ScalarMult ivk g with
    | error e =>
      refine Or.inr (Or.inl ⟨g, e, hfb, hsm, ?_⟩)
      simp only [NewPaymentAddress, hfb, hsm]
    | ok pk =>
      refine Or.inr (Or.inr ⟨g, pk, hfb, hsm, hon, hid, ?_⟩)
      simp only [NewPaymentAddress, hfb, hsm]
  · refine Or.inl ⟨e, hfb, ?_⟩
    simp only [NewPaymentAddress, hfb]

/-- C15: for every diversifier `d` and scalar `ivk`, `NewPaymentAddress(d, ivk)`
fails exactly when the base-point derivation fails or `ScalarMult(ivk, g_d)`
fails, and passes that error on; whenever it returns an address, the address
has the given `d`, its `g_d` is the derived base point, on-curve and not the
identity, and its `pk_d` is `ivk • g_d`. -/
theorem NewPaymentAddress_fails_exactly_and_invariant (E : Env) (d : List Byte)
    (ivk : E.jj.Scalar) :
    ((∃ e, NewPaymentAddress E d ivk = .ret (none, some e)) ↔
      ((∃ e, findBasepoint E d = (none, some e)) ∨
        ∃ g e, findBasepoint E d = (some g, none) ∧ E.jj.ScalarMult ivk g = .error e)) ∧
    (∀ e, findBasepoint E d = (none, some e) →
      NewPaymentAddress E d ivk = .ret (none, some e)) ∧
    (∀ g e, findBasepoint E d = (some g, none) → E.jj.ScalarMult ivk g = .error e →
      NewPaymentAddress E d ivk = .ret (none, some (.lib e))) ∧
    (∀ addr, NewPaymentAddress E d ivk = .ret (some addr, none) →
      addr.d = d ∧ findBasepoint E d = (some addr.g_d, none) ∧
      E.jj.IsOnCurve addr.g_d = true ∧ E.jj.IsIdentity addr.g_d = false ∧
      E.jj.ScalarMult ivk addr.g_d = .ok addr.pk_d) ∧
    ((∃ e, NewPaymentAddress E d ivk = .ret (none, some e)) ∨
      ∃ addr, NewPaymentAddress E d ivk = .ret (some addr, none)) := by
  rcases NewPaymentAddress_cases E d ivk with ⟨e, hfb, hnpa⟩ | ⟨g, e, hfb, hsm, hnpa⟩ |
    ⟨g, pk, hfb, hsm, hon, hid, hnpa⟩
  · refine ⟨⟨fun _ => Or.inl ⟨e, hfb⟩, fun _ => ⟨e, hnpa⟩⟩, ?_, ?_, ?_, Or.inl ⟨e, hnpa⟩⟩
    · intro e2 h2
      rw [hfb] at h2
      cases h2
      exact hnpa
    · intro g2 e2 h2
      rw [hfb] at h2
      cases h2
    · intro addr h
      rw [hnpa] at h
      cases h
  · refine ⟨⟨fun _ => Or.inr ⟨g, e, hfb, hsm⟩, fun _ => ⟨_, hnpa⟩⟩, ?_, ?_, ?_,
      Or.inl ⟨_, hnpa⟩⟩
    · intro e2 h2
      rw [hfb] at h2
      cases h2
    · intro g2 e2 h2 h3
      rw [hfb] at h2
      cases h2
      rw [hsm] at h3
      cases h3
      exact hnpa
    · intro addr h
      rw [hnpa] at h
      cases h
  · refine ⟨⟨?_, ?_⟩, ?_, ?_, ?_, Or.inr ⟨_, hnpa⟩⟩
    · rintro ⟨e, h⟩
      rw [hnpa] at h
      cases h
    · rintro (⟨e, h⟩ | ⟨g2, e, h2, h3⟩)
      · rw [hfb] at h
        cases h
      · rw [hfb] at h2
        cases h2
        rw [hsm] at h3
        cases h3
    · intro e2 h2
      rw [hfb] at h2
      cases h2
    · intro g2 e2 h2 h3
      rw [hfb] at h2
      cases h2
      rw [hsm] at h3
      cases h3
    · intro addr h
      rw [hnpa] at h
      cases h
      exact ⟨rfl, hfb, hon, hid, hsm⟩

set_option maxRecDepth 100000 in
/-- C15, at concrete inputs: in the small instance the diversifier of eleven
bytes 3 gives the address with base point 72 and key `3 • 72 = 8`, and the
diversifier of eleven bytes 0 gives the error of the base-point derivation. -/
theorem NewPaymentAddress_fails_exactly_and_invariant_witness :
    NewPaymentAddress toyEnv toyDiversifier (3 : Nat) =
        .ret (some { d := toyDiversifier, g_d := (72 : Nat), pk_d := (8 : Nat) }, none) ∧
      NewPaymentAddress toyEnv (List.replicate 11 0) (3 : Nat) =
        .ret (none, some (.lib (.other 1))) :=
  ⟨by rfl,
    (NewPaymentAddress_fails_exactly_and_invariant toyEnv (List.replicate 11 0) (3 : Nat)).2.1
      (.lib (.other 1)) (by decide)⟩

/-- What DecryptNote does once the key agreement, the key derivation and the
AEAD succeed on a plaintext of at least 12 bytes whose recipient cannot be
derived: it returns the error of `NewPaymentAddress`. -/
theorem DecryptNote_of_recipient_error (E : Env) (ivk : E.jj.Scalar) (epk : E.jj.Point)
    (cmu : E.jj.FieldElement) (ct : List Byte) (p : E.jj.Point) (key pt : List Byte)
    (e : GoError)
    (hka : E.jj.ScalarMult ivk epk = .ok p)
    (hkdf : saplingKDF E (E.jj.MulByCofactor p) epk = .ret key)
    (hnew : E.aead.New key = none)
    (hopen : E.aead.Open key (make 12) ct [] = .ok pt)
    (hlen : 12 ≤ pt.length)
    (hnpa : NewPaymentAddress E ((pt.take 12).drop 1) ivk = .ret (none, some e)) :
    DecryptNote E ivk epk cmu ct = .ret (none, some e) := by
  unfold DecryptNote
  simp only [saplingKeyAgreement, hka, hkdf, hnew, hopen]
  have hidx : index pt 0 = some (pt.getD 0 0) := by
    unfold index
    rw [if_pos (by omega)]
  rw [hidx]
  simp only
  rw [slice_of_le pt 1 12 (by norm_num) (by omega)]
  have hdl : ((pt.take 12).drop 1).length = 11 := by
    simp [Nat.min_eq_left (show 12 ≤ pt.length by omega)]
  simp only
  rw [copy_make_of_length 11 _ hdl, hnpa]

/-- The version switch of DecryptNote for a version byte that is neither 0x01
nor 0x02: the non-standard-plaintext error. -/
theorem DecryptNote.versionSwitch_other (E : Env) (epk : E.jj.Point) (n0 : Note E.jj)
    (g_d : E.jj.Point) (pt : List Byte)
    (hv1 : n0.version ≠ BeforeZIP212) (hv2 : n0.version ≠ AfterZIP212) :
    DecryptNote.versionSwitch E epk n0 g_d pt = .ret (none, some .nonStandardPlaintext) := by
  unfold DecryptNote.versionSwitch
  rw [if_neg hv1, if_neg hv2]

/-- The version switch of DecryptNote for version 0x01 on a plaintext of at
least 512 bytes: the scalar is decoded from bytes 20..52; any error other than
`ErrScalarOutOfRange` gives the non-canonical-rcm error, and otherwise the note
is returned. -/
theorem DecryptNote.versionSwitch_v1 (E : Env) (epk : E.jj.Point) (n0 : Note E.jj)
    (g_d : E.jj.Point) (pt : List Byte)
    (hv : n0.version = BeforeZIP212) (hlen : 512 ≤ pt.length) :
    DecryptNote.versionSwitch E epk n0 g_d pt =
      if (E.jj.ScalarFromBytes ((pt.take 52).drop 20)).2 ≠ none ∧
          (E.jj.ScalarFromBytes ((pt.take 52).drop 20)).2 ≠
            some LibError.ErrScalarOutOfRange then
        .ret (none, some .nonCanonicalRcm)
      else
        .ret (some { n0 with rcm := (E.jj.ScalarFromBytes ((pt.take 52).drop 20)).1,
                             memo := (pt.take 512).drop 52 ++ List.replicate 52 0 }, none) := by
  unfold DecryptNote.versionSwitch
  rw [if_pos hv, slice_of_le pt 20 52 (by norm_num) (by omega)]
  simp only
  split
  · rfl
  · exact DecryptNote.memoAndReturn_of_le _ pt hlen

/-- C14: for an on-curve `epk` and a ciphertext that authenticates to a
plaintext of 564 bytes whose first byte is neither 0x01 nor 0x02, DecryptNote
returns an error and no note; when the recipient is derived, the error is the
non-standard-plaintext error. -/
theorem DecryptNote_other_version_fails (E : Env) (ivk : E.jj.Scalar) (epk : E.jj.Point)
    (cmu : E.jj.FieldElement) (ct : List Byte) (p : E.jj.Point) (key pt : List Byte)
    (hka : E.jj.ScalarMult ivk epk = .ok p)
    (hkdf : saplingKDF E (E.jj.MulByCofactor p) epk = .ret key)
    (hnew : E.aead.New key = none)
    (hopen : E.aead.Open key (make 12) ct [] = .ok pt)
    (hlen : pt.length = 564)
    (hv1 : pt.getD 0 0 ≠ 0x01) (hv2 : pt.getD 0 0 ≠ 0x02) :
    (∃ e, DecryptNote E ivk epk cmu ct = .ret (none, some e)) ∧
    (∀ recipient,
      NewPaymentAddress E ((pt.take 12).drop 1) ivk = .ret (some recipient, none) →
      DecryptNote E ivk epk cmu ct = .ret (none, some .nonStandardPlaintext)) := by
  have hdef : ∀ recipient,
      NewPaymentAddress E ((pt.take 12).drop 1) ivk = .ret (some recipient, none) →
      DecryptNote E ivk epk cmu ct = .ret (none, some .nonStandardPlaintext) := by
    intro recipient hnpa
    rw [DecryptNote_eq_versionSwitch E ivk epk cmu ct p key pt recipient hka hkdf hnew hopen
      (by omega) hnpa]
    exact DecryptNote.versionSwitch_other E epk _ _ pt hv1 hv2
  refine ⟨?_, hdef⟩
  rcases NewPaymentAddress_cases E ((pt.take 12).drop 1) ivk with ⟨e, _, hnpa⟩ |
    ⟨g, e, _, _, hnpa⟩ | ⟨g, pk, _, _, _, _, hnpa⟩
  · exact ⟨e, DecryptNote_of_recipient_error E ivk epk cmu ct p key pt e hka hkdf hnew hopen
      (by omega) hnpa⟩
  · exact ⟨_, DecryptNote_of_recipient_error E ivk epk cmu ct p key pt _ hka hkdf hnew hopen
      (by omega) hnpa⟩
  · exact ⟨_, hdef _ hnpa⟩

set_option maxRecDepth 1000000 in
/-- C14, at a concrete input: in the small instance the ciphertext of 580 bytes
of a plaintext with version byte 0x03 gives the non-standard-plaintext error. -/
theorem DecryptNote_other_version_fails_witness :
    toyCiphertextV3.length = 580 ∧
      DecryptNote toyEnv (3 : Nat) (8 : Nat) (0 : Nat) toyCiphertextV3 =
        .ret (none, some .nonStandardPlaintext) :=
  ⟨by decide,
    (DecryptNote_other_version_fails toyEnv (3 : Nat) (8 : Nat) (0 : Nat) toyCiphertextV3
      (24 : Nat) (63 :: List.replicate 31 0) toyPlaintextV3 (by rfl) (by rfl) (by rfl) (by rfl)
      (by decide) (by decide) (by decide)).2
      { d := toyDiversifier, g_d := (72 : Nat), pk_d := (8 : Nat) } (by rfl)⟩

/-- On eight bytes `binary.LittleEndian.Uint64` is the little-endian value, an
unsigned integer of 64 bits. -/
theorem Uint64_eq_specLittleEndian (b : List Nat) (hlen : b.length = 8)
    (hb : ∀ x ∈ b, x < 256) :
    Uint64 b = specLittleEndian b ∧ Uint64 b < 2 ^ 64 := by
  match b, hlen, hb with
  | [b0, b1, b2, b3, b4, b5, b6, b7], _, hb =>
    have h0 : (b0 : Nat) < 256 := hb b0 (by simp)
    have h1 : (b1 : Nat) < 256 := hb b1 (by simp)
    have h2 : (b2 : Nat) < 256 := hb b2 (by simp)
    have h3 : (b3 : Nat) < 256 := hb b3 (by simp)
    have h4 : (b4 : Nat) < 256 := hb b4 (by simp)
    have h5 : (b5 : Nat) < 256 := hb b5 (by simp)
    have h6 : (b6 : Nat) < 256 := hb b6 (by simp)
    have h7 : (b7 : Nat) < 256 := hb b7 (by simp)
    have hv : Uint64 [b0, b1, b2, b3, b4, b5, b6, b7] =
        b0 + b1 * 2 ^ 8 + b2 * 2 ^ 16 + b3 * 2 ^ 24 + b4 * 2 ^ 32 + b5 * 2 ^ 40 + b6 * 2 ^ 48 +
          b7 * 2 ^ 56 := by
      show b0 ||| (b1 <<< 8) ||| (b2 <<< 16) ||| (b3 <<< 24) ||| (b4 <<< 32) ||| (b5 <<< 40) |||
        (b6 <<< 48) ||| (b7 <<< 56) = _
      rw [or_shiftLeft_eq_add b0 b1 8 (by omega),
        or_shiftLeft_eq_add _ b2 16 (by omega),
        or_shiftLeft_eq_add _ b3 24 (by omega),
        or_shiftLeft_eq_add _ b4 32 (by omega),
        or_shiftLeft_eq_add _ b5 40 (by omega),
        or_shiftLeft_eq_add _ b6 48 (by omega),
        or_shiftLeft_eq_add _ b7 56 (by omega)]
    have hs : specLittleEndian [b0, b1, b2, b3, b4, b5, b6, b7] =
        b0 + 256 * (b1 + 256 * (b2 + 256 * (b3 + 256 * (b4 + 256 * (b5 + 256 * (b6 +
          256 * (b7 + 256 * 0))))))) := rfl
    rw [hv, hs]
    constructor <;> omega

/-- C16: whenever DecryptNote returns a note, the value of the note is
`binary.LittleEndian.Uint64(plaintext[12:20])`, which for bytes below 256 is
the little-endian unsigned 64-bit integer of these eight bytes, and the
recipient is the address that `NewPaymentAddress` returns for the diversifier of
eleven bytes `plaintext[1:12]` and `ivk`. -/
theorem DecryptNote_value_and_recipient (E : Env) (ivk : E.jj.Scalar) (epk : E.jj.Point)
    (cmu : E.jj.FieldElement) (ct : List Byte) (note : Note E.jj)
    (hs : DecryptNote E ivk epk cmu ct = .ret (some note, none)) :
    ∃ p key pt recipient,
      E.jj.ScalarMult ivk epk = .ok p ∧
      saplingKDF E (E.jj.MulByCofactor p) epk = .ret key ∧
      E.aead.Open key (make 12) ct [] = .ok pt ∧
      ((pt.take 20).drop 12).length = 8 ∧
      note.value = Uint64 ((pt.take 20).drop 12) ∧
      ((∀ x ∈ (pt.take 20).drop 12, x < 256) →
        note.value = specLittleEndian ((pt.take 20).drop 12) ∧ note.value < 2 ^ 64) ∧
      ((pt.take 12).drop 1).length = 11 ∧
      NewPaymentAddress E ((pt.take 12).drop 1) ivk = .ret (some recipient, none) ∧
      note.recipient = some recipient ∧
      recipient.d = (pt.take 12).drop 1 := by
  obtain ⟨p, key, pt, recipient, hka, hkdf, _, hopen, h20, hnpa, hvs⟩ :=
    DecryptNote_success_inv E ivk epk cmu ct note hs
  obtain ⟨_, hcase⟩ := DecryptNote.versionSwitch_inv E epk _ note _ pt hvs
  have hval : note.value = Uint64 ((pt.take 20).drop 12) ∧ note.recipient = some recipient := by
    rcases hcase with ⟨_, _, hn⟩ | ⟨_, _, _, _, _, _, _, _, _, _, hn⟩ <;> rw [hn] <;>
      exact ⟨rfl, rfl⟩
  have hl8 : ((pt.take 20).drop 12).length = 8 := by
    simp [Nat.min_eq_left h20]
  have hl11 : ((pt.take 12).drop 1).length = 11 := by
    simp [Nat.min_eq_left (show 12 ≤ pt.length by omega)]
  have hd : recipient.d = (pt.take 12).drop 1 := by
    rcases NewPaymentAddress_cases E ((pt.take 12).drop 1) ivk with ⟨e, _, h⟩ |
      ⟨g, e, _, _, h⟩ | ⟨g, pk, _, _, _, _, h⟩
    · rw [hnpa] at h
      cases h
    · rw [hnpa] at h
      cases h
    · rw [hnpa] at h
      cases h
      rfl
  refine ⟨p, key, pt, recipient, hka, hkdf, hopen, hl8, hval.1, ?_, hl11, hnpa, hval.2, hd⟩
  intro hb
  rw [hval.1]
  exact Uint64_eq_specLittleEndian _ hl8 hb

set_option maxRecDepth 1000000 in
/-- C16, at a concrete input: in the small instance the version-0x01 ciphertext
is decrypted to a note with the value 5 and the address of the diversifier of
eleven bytes 3. -/
theorem DecryptNote_value_and_recipient_witness :
    ∃ note : Note toyJubjub,
      DecryptNote toyEnv (3 : Nat) (8 : Nat) (0 : Nat) toyCiphertextV1 = .ret (some note, none) ∧
      note.value = 5 ∧
      ∃ p key pt recipient,
        toyJubjub.ScalarMult (3 : Nat) (8 : Nat) = .ok p ∧
        saplingKDF toyEnv (toyJubjub.MulByCofactor p) (8 : Nat) = .ret key ∧
        toyEnv.aead.Open key (make 12) toyCiphertextV1 [] = .ok pt ∧
        ((pt.take 20).drop 12).length = 8 ∧
        note.value = Uint64 ((pt.take 20).drop 12) ∧
        ((∀ x ∈ (pt.take 20).drop 12, x < 256) →
          note.value = specLittleEndian ((pt.take 20).drop 12) ∧ note.value < 2 ^ 64) ∧
        ((pt.take 12).drop 1).length = 11 ∧
        NewPaymentAddress toyEnv ((pt.take 12).drop 1) (3 : Nat) = .ret (some recipient, none) ∧
        note.recipient = some recipient ∧
        recipient.d = (pt.take 12).drop 1 :=
  ⟨_, rfl, by decide,
    DecryptNote_value_and_recipient toyEnv (3 : Nat) (8 : Nat) (0 : Nat) toyCiphertextV1 _ rfl⟩

/-! ## Theorems: viewing keys, continued -/

/-- C17: for every string that decodes with a human-readable part other than
`zxviews`, `NewViewingKey` returns `ErrKeyType` and no key, whatever the
payload; and for every string that decodes and whose payload after the strict
conversion from 5 to 8 bits does not have exactly 169 bytes, it returns an error
and no key. -/
theorem NewViewingKey_rejects (B : ByteOrder) (Z : Zech32) (encoded hrp : String)
    (decoded : List Byte)
    (hdec : Z.Decode encoded = .ok (hrp, decoded)) :
    (hrp ≠ "zxviews" → NewViewingKey B Z encoded = (none, some .ErrKeyType)) ∧
    (∀ data, Z.ConvertBits decoded 5 8 false = .ok data → data.length ≠ 169 →
      ∃ e, NewViewingKey B Z encoded = (none, some e)) ∧
    (∀ e, Z.ConvertBits decoded 5 8 false = .error e →
      ∃ e2, NewViewingKey B Z encoded = (none, some e2)) := by
  refine ⟨?_, ?_, ?_⟩
  · intro h
    simp only [NewViewingKey, hdec]
    rw [if_pos h]
  · intro data hconv hlen
    by_cases h : hrp ≠ "zxviews"
    · exact ⟨_, by simp only [NewViewingKey, hdec]; rw [if_pos h]⟩
    · refine ⟨.efvkWrongSize, ?_⟩
      simp only [NewViewingKey, hdec, hconv]
      rw [if_neg h, saplingExtendedFullViewingKey.UnmarshalBinary_of_length_ne _ B data hlen]
  · intro e hconv
    by_cases h : hrp ≠ "zxviews"
    · exact ⟨_, by simp only [NewViewingKey, hdec]; rw [if_pos h]⟩
    · refine ⟨.lib e, ?_⟩
      simp only [NewViewingKey, hdec, hconv]
      rw [if_neg h]

set_option maxRecDepth 100000 in
/-- C17, at concrete inputs: in the small instance the string `zs1qq` gives
`ErrKeyType`, and the string `zxviews1qq`, whose payload has two bytes, gives the
wrong-size error. -/
theorem NewViewingKey_rejects_witness :
    NewViewingKey bigEndian toyZech32 "zs1qq" = (none, some .ErrKeyType) ∧
      ∃ e, NewViewingKey bigEndian toyZech32 "zxviews1qq" = (none, some e) :=
  ⟨(NewViewingKey_rejects bigEndian toyZech32 "zs1qq" "zs" [17, 17] (by rfl)).1 (by decide),
    (NewViewingKey_rejects bigEndian toyZech32 "zxviews1qq" "zxviews" [17, 17]
      (by rfl)).2.1 [17, 17]
      (by rfl) (by decide)⟩

/-! ## Theorems: notes, continued -/

/-- C18: the result of DecryptNote does not depend on the supplied `cmu`: for
any two field elements it returns the same note or the same error. -/
theorem DecryptNote_ignores_cmu (E : Env) (ivk : E.jj.Scalar) (epk : E.jj.Point)
    (cmu1 cmu2 : E.jj.FieldElement) (ct : List Byte) :
    DecryptNote E ivk epk cmu1 ct = DecryptNote E ivk epk cmu2 ct := by
  unfold DecryptNote
  rfl

/-- C19: for an on-curve `epk` and a ciphertext that authenticates to a
version-0x01 plaintext of 564 bytes whose recipient is derived, DecryptNote
returns the note when decoding `plaintext[20:52]` reports no error or reports
`ErrScalarOutOfRange`, and it returns the non-canonical-rcm error exactly when
the decoding reports some other error; nothing is compared with `epk`. -/
theorem DecryptNote_v1_tolerates_out_of_range (E : Env) (ivk : E.jj.Scalar)
    (epk : E.jj.Point) (cmu : E.jj.FieldElement) (ct : List Byte) (p : E.jj.Point)
    (key pt : List Byte) (recipient : PaymentAddress E.jj)
    (hka : E.jj.ScalarMult ivk epk = .ok p)
    (hkdf : saplingKDF E (E.jj.MulByCofactor p) epk = .ret key)
    (hnew : E.aead.New key = none)
    (hopen : E.aead.Open key (make 12) ct [] = .ok pt)
    (hlen : pt.length = 564)
    (hver : pt.getD 0 0 = BeforeZIP212)
    (hnpa : NewPaymentAddress E ((pt.take 12).drop 1) ivk = .ret (some recipient, none)) :
    ((E.jj.ScalarFromBytes ((pt.take 52).drop 20)).2 = some .ErrScalarOutOfRange ∨
        (E.jj.ScalarFromBytes ((pt.take 52).drop 20)).2 = none →
      DecryptNote E ivk epk cmu ct =
        .ret (some { version := pt.getD 0 0, value := Uint64 ((pt.take 20).drop 12),
                     recipient := some recipient,
                     rcm := (E.jj.ScalarFromBytes ((pt.take 52).drop 20)).1,
                     rseed := [],
                     memo := (pt.take 512).drop 52 ++ List.replicate 52 0 }, none)) ∧
    (DecryptNote E ivk epk cmu ct = .ret (none, some .nonCanonicalRcm) ↔
      ∃ e, (E.jj.ScalarFromBytes ((pt.take 52).drop 20)).2 = some e ∧
        e ≠ .ErrScalarOutOfRange) := by
  have hD := DecryptNote_eq_versionSwitch E ivk epk cmu ct p key pt recipient hka hkdf hnew hopen
    (by omega) hnpa
  rw [DecryptNote.versionSwitch_v1 E epk _ recipient.g_d pt hver (by omega)] at hD
  rw [hD]
  refine ⟨?_, ?_⟩
  · intro h
    rw [if_neg]
    rintro ⟨h1, h2⟩
    rcases h with h | h
    · exact h2 h
    · exact h1 h
  · constructor
    · intro h
      split at h
      · rename_i hc
        cases hsc : (E.jj.ScalarFromBytes ((pt.take 52).drop 20)).2 with
        | none => exact absurd hsc hc.1
        | some e =>
          refine ⟨e, rfl, ?_⟩
          intro he
          rw [he] at hsc
          exact hc.2 hsc
      · cases h
    · rintro ⟨e, he, hne⟩
      rw [if_pos]
      rw [he]
      refine ⟨by simp, ?_⟩
      intro h
      cases h
      exact hne rfl

set_option maxRecDepth 1000000 in
/-- C19, at a concrete input: in the small instance the scalar encoding
`20, 0, ..., 0` is out of range, and the version-0x01 ciphertext with it is
decrypted to a note with the reduced scalar 7. -/
theorem DecryptNote_v1_tolerates_out_of_range_witness :
    (toyJubjub.ScalarFromBytes ((toyPlaintextV1OutOfRange.take 52).drop 20)).2 =
        some .ErrScalarOutOfRange ∧
      ∃ note : Note toyJubjub,
        DecryptNote toyEnv (3 : Nat) (8 : Nat) (0 : Nat) toyCiphertextV1OutOfRange =
          .ret (some note, none) ∧ note.rcm = some (7 : Nat) :=
  ⟨by decide, _,
    (DecryptNote_v1_tolerates_out_of_range toyEnv (3 : Nat) (8 : Nat) (0 : Nat)
      toyCiphertextV1OutOfRange (24 : Nat) (63 :: List.replicate 31 0) toyPlaintextV1OutOfRange
      { d := toyDiversifier, g_d := (72 : Nat), pk_d := (8 : Nat) }
      (by rfl) (by rfl) (by rfl) (by rfl) (by decide) (by decide) (by rfl)).1
      (Or.inl (by decide)),
    by decide⟩

/-- The function `saplingKDF` returns exactly when the digest can be made, and
then it returns the digest of 32 bytes requested for
`compress(secret) ‖ compress(epk)`. -/
theorem saplingKDF_eq_ret (E : Env) (secret epk : E.jj.Point) (key : List Byte) :
    saplingKDF E secret epk = .ret key ↔
      E.blake2b.NewDigest ZcashSaplingKDFPersonality 32 = none ∧
        key = E.blake2b.Sum ZcashSaplingKDFPersonality 32
          (E.jj.Compress secret ++ E.jj.Compress epk) := by
  unfold saplingKDF
  cases h : E.blake2b.NewDigest ZcashSaplingKDFPersonality 32 with
  | some e => simp
  | none =>
    simp only [Outcome.ret.injEq, true_and]
    exact eq_comm

/-- C20: for an on-curve `epk`, the key that DecryptNote uses is the digest of
32 bytes personalised with `Zcash_SaplingKDF` of
`compress(MulByCofactor(ivk • epk)) ‖ compress(epk)`; the plaintext it
interprets is what the AEAD opens from the ciphertext under this key with a
nonce of 12 zero bytes and no associated data: an error of the AEAD is returned
with no note, every note returned is read from that plaintext, and the result
depends on the ciphertext only through what the AEAD opens. -/
theorem DecryptNote_interprets_aead_plaintext (E : Env) (ivk : E.jj.Scalar)
    (epk : E.jj.Point) (cmu : E.jj.FieldElement) (ct : List Byte) (p : E.jj.Point)
    (key : List Byte)
    (hka : E.jj.ScalarMult ivk epk = .ok p)
    (hnd : E.blake2b.NewDigest ZcashSaplingKDFPersonality 32 = none)
    (hkey : key = E.blake2b.Sum ZcashSaplingKDFPersonality 32
      (E.jj.Compress (E.jj.MulByCofactor p) ++ E.jj.Compress epk)) :
    (∀ e, E.aead.New key = some e → DecryptNote E ivk epk cmu ct = .ret (none, some (.lib e))) ∧
    (∀ e, E.aead.New key = none → E.aead.Open key (List.replicate 12 0) ct [] = .error e →
      DecryptNote E ivk epk cmu ct = .ret (none, some (.lib e))) ∧
    (∀ note, DecryptNote E ivk epk cmu ct = .ret (some note, none) →
      ∃ pt recipient, E.aead.New key = none ∧
        E.aead.Open key (List.replicate 12 0) ct [] = .ok pt ∧
        note.version = pt.getD 0 0 ∧
        NewPaymentAddress E ((pt.take 12).drop 1) ivk = .ret (some recipient, none) ∧
        note.recipient = some recipient ∧
        note.value = Uint64 ((pt.take 20).drop 12) ∧
        note.memo = (pt.take 512).drop 52 ++ List.replicate 52 0) ∧
    (∀ ct2, E.aead.Open key (List.replicate 12 0) ct2 [] =
        E.aead.Open key (List.replicate 12 0) ct [] →
      DecryptNote E ivk epk cmu ct2 = DecryptNote E ivk epk cmu ct) := by
  have hkdf : saplingKDF E (E.jj.MulByCofactor p) epk = .ret key :=
    (saplingKDF_eq_ret E _ _ _).2 ⟨hnd, hkey⟩
  refine ⟨?_, ?_, ?_, ?_⟩
  · intro e hnew
    unfold DecryptNote
    simp only [saplingKeyAgreement, hka, hkdf, hnew]
  · intro e hnew hopen
    unfold DecryptNote
    simp only [saplingKeyAgreement, hka, hkdf, hnew, make, hopen]
  · intro note hs
    obtain ⟨p2, key2, pt, recipient, hka2, hkdf2, hnew, hopen, _, hnpa, hvs⟩ :=
      DecryptNote_success_inv E ivk epk cmu ct note hs
    rw [hka] at hka2
    cases hka2
    rw [hkdf] at hkdf2
    cases hkdf2
    obtain ⟨_, hcase⟩ := DecryptNote.versionSwitch_inv E epk _ note _ pt hvs
    refine ⟨pt, recipient, hnew, hopen, ?_, hnpa, ?_, ?_, ?_⟩ <;>
      rcases hcase with ⟨_, _, hn⟩ | ⟨_, _, _, _, _, _, _, _, _, _, hn⟩ <;> rw [hn]
  · intro ct2 h
    unfold DecryptNote
    simp only [saplingKeyAgreement, hka, hkdf, make, h]

set_option maxRecDepth 1000000 in
/-- C20, at concrete inputs: in the small instance the key for the scalar 3 and
the ephemeral key 8 starts with the byte 63; a ciphertext whose tag is wrong is
refused with the error of the AEAD. -/
theorem DecryptNote_interprets_aead_plaintext_witness :
    toyEnv.aead.Open (63 :: List.replicate 31 0) (List.replicate 12 0) toyCiphertextV2 [] =
        .error (.other 5) ∧
      DecryptNote toyEnv (3 : Nat) (8 : Nat) (0 : Nat) toyCiphertextV2 =
        .ret (none, some (.lib (.other 5))) :=
  ⟨by rfl,
    (DecryptNote_interprets_aead_plaintext toyEnv (3 : Nat) (8 : Nat) (0 : Nat) toyCiphertextV2
      (24 : Nat) (63 :: List.replicate 31 0) (by rfl) (by rfl) (by rfl)).2.1 (.other 5) (by rfl)
      (by rfl)⟩

end Sapling
